import Mathlib

/-!
# A verification development for the `@elijahjcobb/nosql` object-relational layer

This file gives a shallow embedding, in Lean, of the algorithmic core of the
`nosql` package: the per-field value codec (`ECSQLObject.encode` / `decode`),
the record lifecycle (`create` / `update` / `updateProps` / `delete`), the
filter/sort/query SQL-text generators, the duplicate-key error classifier
(`ECSQLDatabase.handleError` together with `ECSQLDuplicateKeyHelper.getError`),
and the query-response formatter (`ECSQLResponse`).

Modelling conventions:

* JavaScript strings that flow through byte-level codecs are modelled as lists
  of UTF-16 code units (`List Nat`, each unit < 0x10000); strings used only as
  SQL text or message text are modelled as Lean `String`s.
* Node `Buffer`s are lists of bytes (`List Nat`, each < 256).
* JavaScript numbers appearing in the library (ids are strings; ages,
  timestamps and SQL error codes are integers in every use the library makes
  of them) are modelled as `Int`.
* `Promise` failure / JS `throw` is modelled with `Except`; the thrown
  `ECErrorStack` of the `@elijahjcobb/error` library is a list of errors, and
  the library's `addGenericError`/`withGenericError` helper (whose exact
  message is internal to that external library) is the opaque marker
  `ECError.generic`.
* External collaborators (the MySQL pool, `ECGenerator.randomId`) are
  parameters: a `CreateEnv` supplies the stream of random ids and the outcome
  of each issued insert; query execution is a function from SQL text to rows.
* The JavaScript builtins `JSON.stringify` / `JSON.parse`,
  `Buffer.from(_, "hex")` / `toString("hex")`, `Buffer.from(_, "utf8")` /
  `toString("utf8")` and `decodeURIComponent` are not part of the repository;
  they are modelled here by executable functions satisfying the contracts the
  repository relies on (a canonical JSON serializer whose output the parser
  model inverts, hex and UTF-8 transcoders).  Where the model prunes behaviour
  the repository never exercises (e.g. `JSON.stringify` of a value that is
  neither an array nor an object under an `array`/`object`-typed field), the
  pruned branch is collapsed to the same internal-error path the surrounding
  `try`/`catch` in the source maps real failures to, and this is noted at the
  definition.
-/

namespace NoSQL

/-- The apostrophe character `'` (code 39), used pervasively in generated SQL. -/
def qc : Char := Char.ofNat 39

/-- The backslash character (code 92). -/
def bsc : Char := Char.ofNat 92

/-- The one-character string `'`. -/
def sq : String := String.mk [qc]

/-! ## Error model (the `@elijahjcobb/error` construction API, as consumed) -/

/-- Error categories used by the repository (`ECErrorType` of the error library). -/
inductive ECErrorType where
  | invalidRequest
  | internalSQLError
  | valueAlreadyExists
  | nullOrUndefined
  | parameterIncorrectFormat
deriving DecidableEq, Repr

/-- Error origins used by the repository (`ECErrorOriginType`). -/
inductive ECErrorOriginType where
  | backEnd
  | sqlServer
  | frontEnd
  | user
deriving DecidableEq, Repr

/-- One error of an `ECErrorStack`.  `generic` is the error appended by the
external library's `addGenericError`/`withGenericError`; its content is
internal to that library, so it is kept opaque. -/
inductive ECError where
  | mk (origin : ECErrorOriginType) (etype : ECErrorType) (message : String)
  | generic
deriving DecidableEq, Repr

/-- An `ECErrorStack` is the ordered list of its errors. -/
abbrev ECErrorStack := List ECError

/-! ## Filter compilation (`src/ts/query/ECSQLFilter.ts`) -/

/-- `ECSQLOperator` from `ECSQLFilter.ts`. -/
inductive ECSQLOperator where
  | equal
  | notEqual
  | greaterThan
  | lessThan
  | greaterThanOrEqual
  | lessThanOrEqual
  | containedIn
  | like
deriving DecidableEq, Repr

/-- The SQL text each operator enum member carries in the source. -/
def ECSQLOperator.sqlText : ECSQLOperator → String
  | .equal => "="
  | .notEqual => "!="
  | .greaterThan => ">"
  | .lessThan => "<"
  | .greaterThanOrEqual => ">="
  | .lessThanOrEqual => "<="
  | .containedIn => "IN"
  | .like => "LIKE"

/-- `ECSQLCondition` from `ECSQLFilter.ts`. -/
inductive ECSQLCondition where
  | conjunction
  | disjunction
deriving DecidableEq, Repr

/-- The SQL text of a condition (`And = "AND"`, `Or = "OR"`). -/
def ECSQLCondition.sqlText : ECSQLCondition → String
  | .conjunction => "AND"
  | .disjunction => "OR"

/-- `ECSQLFilterValue = string | boolean | number | string[] | number[]`. -/
inductive ECSQLFilterValue where
  | str (s : String)
  | num (n : Int)
  | bool (b : Bool)
  | arrStr (xs : List String)
  | arrNum (xs : List Int)
deriving DecidableEq, Repr

/-- Whether `Array.isArray` holds of the value. -/
def ECSQLFilterValue.isArray : ECSQLFilterValue → Bool
  | .arrStr _ => true
  | .arrNum _ => true
  | _ => false

/-- A leaf filter: `key`, `operator`, stored `value`. -/
structure ECSQLFilter where
  key : String
  operator : ECSQLOperator
  value : ECSQLFilterValue
deriving DecidableEq, Repr

/-- The `ECSQLFilter` constructor: a boolean value is stored as the number
`1`/`0` (`this.value = value ? 1 : 0`); every other value is stored as is. -/
def ECSQLFilter.make (key : String) (operator : ECSQLOperator)
    (value : ECSQLFilterValue) : ECSQLFilter :=
  match value with
  | .bool b => ⟨key, operator, .num (if b then 1 else 0)⟩
  | v => ⟨key, operator, v⟩

/-- JS `s.replace(RegExp("'", "g"), "")`: delete every apostrophe. -/
def stripQuotes (s : String) : String :=
  String.mk (s.toList.filter (fun c => c ≠ qc))

/-- JS `s.replace(RegExp("'", "g"), "\\'")`: escape every apostrophe with a
backslash. -/
def escapeQuotes (s : String) : String :=
  String.mk ((s.toList.map (fun c => if c = qc then [bsc, qc] else [c])).flatten)

/-- JS string coercion of a non-string filter value, as `command += this.value`
performs it: a number prints its decimal text, a boolean prints
`true`/`false`, an array joins its elements with `,`. -/
def ECSQLFilterValue.coerced : ECSQLFilterValue → String
  | .str s => s
  | .num n => toString n
  | .bool b => if b then "true" else "false"
  | .arrStr xs => String.intercalate "," xs
  | .arrNum xs => String.intercalate "," (xs.map toString)

/-- The element texts of the `IN` list: string elements get their apostrophes
escaped, other elements are coerced to text. -/
def containedInElems : ECSQLFilterValue → List String
  | .arrStr xs => xs.map escapeQuotes
  | .arrNum xs => xs.map toString
  | v => [v.coerced]

/-- The error stack thrown for a non-array `IN` value. -/
def containedInFormatStack : ECErrorStack :=
  [.mk .backEnd .parameterIncorrectFormat
      "If you use the in operator, you must supply an array as the value.",
   .mk .backEnd .internalSQLError "Internal server error."]

/-- `ECSQLFilter.generateSQLCommand` from `ECSQLFilter.ts` (lines 125-168).
The thrown `ECErrorStack` becomes the `Except.error` case. -/
def ECSQLFilter.generateSQLCommand (f : ECSQLFilter) : Except ECErrorStack String :=
  let command := stripQuotes f.key
  if f.operator = .containedIn then
    if f.value.isArray = false then .error containedInFormatStack
    else
      .ok (command ++ " IN (" ++ sq ++
        String.intercalate (sq ++ "," ++ sq) (containedInElems f.value) ++
        sq ++ ")")
  else
    match f.value with
    | .str s => .ok (command ++ f.operator.sqlText ++ sq ++ escapeQuotes s ++ sq)
    | v => .ok (command ++ f.operator.sqlText ++ v.coerced)

/-- The filter tree: a leaf `ECSQLFilter` or an `ECSQLFilterGroup` holding a
condition and an ordered list of children (`ECSQLFilterGroupItems`). -/
inductive ECSQLFilterTree where
  | leaf (f : ECSQLFilter)
  | group (condition : ECSQLCondition) (filters : List ECSQLFilterTree)
deriving Repr

mutual

/-- `generateSQLCommand` of `ECSQLFilterGroup` / `ECSQLFilter`: a leaf
delegates; a group compiles each child wrapped in parentheses, joins the
results with the condition text, and wraps the whole group in parentheses. -/
def ECSQLFilterTree.generateSQLCommand : ECSQLFilterTree → Except ECErrorStack String
  | .leaf f => f.generateSQLCommand
  | .group condition filters =>
      match generateGroupChildren filters with
      | .error e => .error e
      | .ok commands =>
          .ok ("(" ++ String.intercalate (" " ++ condition.sqlText ++ " ") commands ++ ")")

/-- The `forEach` push loop of `ECSQLFilterGroup.generateSQLCommand`: each
child's command, already parenthesized; a child's throw propagates. -/
def generateGroupChildren : List ECSQLFilterTree → Except ECErrorStack (List String)
  | [] => .ok []
  | t :: ts =>
      match t.generateSQLCommand with
      | .error e => .error e
      | .ok s =>
          match generateGroupChildren ts with
          | .error e => .error e
          | .ok rest => .ok (("(" ++ s ++ ")") :: rest)

end

/-! ## Sort compilation (`src/ts/query/ECSQLSort.ts`) -/

/-- `ECSQLSortDirection` (`LeastToGreatest = "ASC"`, `GreatestToLeast = "DESC"`). -/
inductive ECSQLSortDirection where
  | leastToGreatest
  | greatestToLeast
deriving DecidableEq, Repr

/-- The SQL text of a sort direction. -/
def ECSQLSortDirection.sqlText : ECSQLSortDirection → String
  | .leastToGreatest => "ASC"
  | .greatestToLeast => "DESC"

/-- An `ECSQLSort`: a key and a direction. -/
structure ECSQLSort where
  key : String
  direction : ECSQLSortDirection
deriving DecidableEq, Repr

/-- `ECSQLSort.generateSQLCommand`. -/
def ECSQLSort.generateSQLCommand (s : ECSQLSort) : String :=
  "ORDER BY " ++ s.key ++ " " ++ s.direction.sqlText

/-! ## Query compilation (`ECSQLQuery.generateSQLCommand`) -/

/-- The query state an `ECSQLQuery` instance carries: its table, the optional
filter tree given at construction, and the optional sort and limit set by
`setSort` / `setLimit`. -/
structure ECSQLQuery where
  table : String
  filter : Option ECSQLFilterTree
  sort : Option ECSQLSort
  limit : Option Int

/-- `ECSQLQuery.generateSQLCommand(isCount)`: starts from the `SELECT` prefix,
appends the table, then — unconditionally, whether or not `isCount` is set —
the optional `WHERE (<filter>)`, the optional sort clause, the optional
`LIMIT <n>`, and the final semicolon. -/
def ECSQLQuery.generateSQLCommand (q : ECSQLQuery) (isCount : Bool) :
    Except ECErrorStack String :=
  let command := if isCount then "SELECT COUNT(*) FROM " else "SELECT * FROM "
  let command := command ++ q.table
  match (match q.filter with
         | some f =>
             match f.generateSQLCommand with
             | .error e => Except.error e
             | .ok w => Except.ok (command ++ " WHERE " ++ "(" ++ w ++ ")")
         | none => Except.ok command) with
  | .error e => .error e
  | .ok command =>
      let command :=
        match q.sort with
        | some s => command ++ " " ++ s.generateSQLCommand
        | none => command
      let command :=
        match q.limit with
        | some n => command ++ " LIMIT " ++ toString n
        | none => command
      .ok (command ++ ";")

/-- Decidable equality for `Except` results, so concrete SQL-generation facts
can be settled by `decide`. -/
instance {ε α : Type} [DecidableEq ε] [DecidableEq α] : DecidableEq (Except ε α) := fun a b =>
  match a, b with
  | .ok x, .ok y =>
      if h : x = y then .isTrue (by rw [h]) else .isFalse (by intro hh; cases hh; exact h rfl)
  | .ok _, .error _ => .isFalse (by intro hh; cases hh)
  | .error _, .ok _ => .isFalse (by intro hh; cases hh)
  | .error x, .error y =>
      if h : x = y then .isTrue (by rw [h]) else .isFalse (by intro hh; cases hh; exact h rfl)

/-! ## The duplicate-key classifier (`ECSQLDatabase.handleError`,
`ECSQLDuplicateKeyHelper.getError`) -/

/-- The `errno` field of a MySQL driver error: a numeric code such as `1062`,
or a string such as `"ECONNREFUSED"`. -/
inductive SQLErrno where
  | num (n : Int)
  | text (s : String)
deriving DecidableEq, Repr

/-- The fields of the driver error object that `handleError` reads. -/
structure SQLErrorInfo where
  errno : SQLErrno
  sqlMessage : String
  message : String
deriving DecidableEq, Repr

/-- JS `hay.startsWith(needle)` on character lists. -/
def listStartsWith : List Char → List Char → Bool
  | _, [] => true
  | [], _ :: _ => false
  | c :: cs, d :: ds => c = d && listStartsWith cs ds

/-- Worker for `jsIndexOf`: the index (counted from `i`) of the first
occurrence of `needle`, or `-1`. -/
def jsIndexOfAux (needle : List Char) : List Char → Nat → Int
  | [], i => if listStartsWith [] needle then (i : Int) else -1
  | c :: rest, i =>
      if listStartsWith (c :: rest) needle then (i : Int)
      else jsIndexOfAux needle rest (i + 1)

/-- JS `hay.indexOf(needle)`: first index of the needle, `-1` when absent. -/
def jsIndexOf (hay needle : String) : Int :=
  jsIndexOfAux needle.toList hay.toList 0

/-- JS `s.substring(a, b)`: both ends clamped into `[0, length]` and swapped
when the start exceeds the end. -/
def jsSubstring (s : String) (a b : Int) : String :=
  let n := s.length
  let lo := min (a.toNat) n
  let hi := min (b.toNat) n
  let first := min lo hi
  let last := max lo hi
  String.mk ((s.toList.drop first).take (last - first))

/-- JS `s.toLowerCase()` restricted to ASCII letters (every constraint name
the repository handles is ASCII). -/
def jsToLowerCase (s : String) : String :=
  String.mk (s.toList.map (fun c =>
    if 65 ≤ c.toNat && c.toNat ≤ 90 then Char.ofNat (c.toNat + 32) else c))

/-- The needle `'PRIMARY'` whose presence in `sqlMessage` marks a primary-key
collision. -/
def primaryNeedle : String := sq ++ "PRIMARY" ++ sq

/-- The needle `key '` in front of the offending constraint name. -/
def keyNeedle : String := "key " ++ sq

/-- The constraint name `ECSQLDuplicateKeyHelper.getError` slices out of the
driver message: from just after `key '` to just before the final character,
lower-cased. -/
def extractConstraintName (message : String) : String :=
  jsToLowerCase (jsSubstring message (jsIndexOf message keyNeedle + 5)
    ((message.length : Int) - 1))

/-- `ECSQLDuplicateKeyHelper.getError`: resolves the sliced constraint name
through the configured map (an absent `duplicateKeys` init option behaves as
the empty map), falling back to the raw name, and builds the user-facing
`ValueAlreadyExists` error. -/
def ECSQLDuplicateKeyHelper.getError (keys : List (String × String))
    (error : SQLErrorInfo) : ECError :=
  let duplicatedKey := extractConstraintName error.sqlMessage
  let keyToUse :=
    match keys.lookup duplicatedKey with
    | some v => v
    | none => duplicatedKey
  .mk .user .valueAlreadyExists
    ("This value already exists for key: " ++ sq ++ keyToUse ++ sq ++ ".")

/-- `handleError` either returns the boolean retry signal (the literal `true`
the source returns for a primary-key duplicate) or an error stack. -/
inductive HandleErrorResult where
  | retrySignal
  | stack (es : ECErrorStack)
deriving DecidableEq, Repr

/-- The text interpolated for the code in the generic branch message. -/
def SQLErrno.coerced : SQLErrno → String
  | .num n => toString n
  | .text s => s

/-- `ECSQLDatabase.handleError` (`part_002`, lines 87-129). -/
def ECSQLDatabase.handleError (duplicateKeys : List (String × String))
    (error : SQLErrorInfo) : HandleErrorResult :=
  if error.errno = .num 1062 then
    if jsIndexOf error.sqlMessage primaryNeedle ≠ -1 then .retrySignal
    else .stack [ECSQLDuplicateKeyHelper.getError duplicateKeys error]
  else if error.errno = .text "ECONNREFUSED" then
    .stack [.mk .sqlServer .internalSQLError "The SQL Database is not online.",
            .mk .sqlServer .internalSQLError "Internal Database Error."]
  else
    .stack [.mk .sqlServer .internalSQLError
              ("Code: " ++ error.errno.coerced ++ ", SQLMessage: " ++
               error.sqlMessage ++ ", Message: " ++ error.message),
            .mk .sqlServer .internalSQLError "Internal Database Error."]

/-! ## Record lifecycle (`ECSQLObject.create` / `update` / `updateProps` /
`delete`, `part_000`) -/

/-- What the database reports for the insert issued on a given attempt:
success, a rejection that `handleError` classified as the primary-key retry
signal (so `create`'s catch sees a boolean), or a rejection with any other
error stack. -/
inductive AttemptOutcome where
  | success
  | pkCollision
  | failure (e : ECErrorStack)

/-- The environment `create` runs against: the outcome of the insert of each
attempt (numbered from 0) and the successive draws of
`ECGenerator.randomId`. -/
structure CreateEnv where
  outcome : Nat → AttemptOutcome
  randomId : Nat → String

/-- The stack thrown when the create loop exceeds its retry bound. -/
def retryExhaustedStack : ECErrorStack :=
  [.mk .sqlServer .internalSQLError "ECSQLObject create recursed more than 100 times.",
   .generic]

/-- The inner `createProcess` closure of `ECSQLObject.create`.  Attempt `a`
draws `randomId (2*a)` as `this.id` (the value encoded into the insert row)
and then draws `randomId (2*a+1)` as the separate `newID` local that the
closure returns on success.  On the boolean retry signal the recursion counter
is incremented, aborting past 100; any other rejection is re-thrown.  The
result carries the returned `newID` together with the ordered list of `id`
column values the issued inserts actually wrote.  (The other encoded columns
are irrelevant to the claims over this function and are elided from the
trace.) -/
def createProcess (env : CreateEnv) (recurseCount attempt : Nat) :
    Except ECErrorStack (String × List String) :=
  let insertedId := env.randomId (2 * attempt)
  let newID := env.randomId (2 * attempt + 1)
  match env.outcome attempt with
  | .success => .ok (newID, [insertedId])
  | .failure e => .error e
  | .pkCollision =>
      if recurseCount + 1 > 100 then .error retryExhaustedStack
      else
        match createProcess env (recurseCount + 1) (attempt + 1) with
        | .ok (r, tr) => .ok (r, insertedId :: tr)
        | .error e => .error e
termination_by 101 - recurseCount
decreasing_by omega

/-- The observable result of a successful `create`: the id the instance holds
afterwards (`this.id = await createProcess()`) and the id column values the
issued inserts wrote. -/
structure CreateResult where
  finalId : Option String
  insertedIds : List String
deriving DecidableEq, Repr

/-- The stack thrown by `create` on an instance that already has an id. -/
def alreadyExistsStack (table : String) : ECErrorStack :=
  [.mk .backEnd .invalidRequest
     ("You cannot create a " ++ table ++ " that already exists in the database."),
   .generic]

/-- `ECSQLObject.create`: rejects when an id is already present, otherwise
runs `createProcess` from a zero recursion count and installs its returned
`newID` as the instance id. -/
def ECSQLObject.create (env : CreateEnv) (table : String) (currentId : Option String) :
    Except ECErrorStack CreateResult :=
  match currentId with
  | some _ => .error (alreadyExistsStack table)
  | none =>
      match createProcess env 0 0 with
      | .ok (newID, tr) => .ok ⟨some newID, tr⟩
      | .error e => .error e

/-- The statements the update/delete operations issue (their SQL text is
produced by the external `@elijahjcobb/sql-cmd` builder, so the statements are
modelled structurally). -/
inductive LifecycleCmd where
  | updateAll (table : String) (whereId : String)
  | updateSome (table : String) (whereId : String) (keys : List String)
  | deleteRow (table : String) (whereId : String)
deriving DecidableEq, Repr

/-- The in-memory state the lifecycle operations read and write: the id. -/
structure ObjState where
  id : Option String
deriving DecidableEq, Repr

/-- The stack thrown by `update`/`updateProps` without an id. -/
def cannotUpdateStack (table : String) : ECErrorStack :=
  [.mk .backEnd .invalidRequest
     ("You cannot update a " ++ table ++ " that does not exist in the database."),
   .generic]

/-- The stack thrown by `delete` without an id. -/
def cannotDeleteStack (table : String) : ECErrorStack :=
  [.mk .backEnd .invalidRequest
     ("You cannot delete a " ++ table ++ " that does not exist in the database."),
   .generic]

/-- `ECSQLObject.update`, over a database oracle mapping each issued statement
to `none` (success) or a rejection stack.  Returns the list of issued
statements alongside the outcome. -/
def ECSQLObject.update (db : LifecycleCmd → Option ECErrorStack) (table : String)
    (s : ObjState) : List LifecycleCmd × Except ECErrorStack ObjState :=
  match s.id with
  | none => ([], .error (cannotUpdateStack table))
  | some i =>
      let cmd := LifecycleCmd.updateAll table i
      ([cmd], match db cmd with
              | some e => .error e
              | none => .ok s)

/-- `ECSQLObject.updateProps(keys...)`: like `update` but naming the given
columns, always appending `updatedAt` when it is not listed. -/
def ECSQLObject.updateProps (db : LifecycleCmd → Option ECErrorStack) (table : String)
    (keys : List String) (s : ObjState) : List LifecycleCmd × Except ECErrorStack ObjState :=
  match s.id with
  | none => ([], .error (cannotUpdateStack table))
  | some i =>
      let keys := if keys.contains "updatedAt" then keys else keys ++ ["updatedAt"]
      let cmd := LifecycleCmd.updateSome table i keys
      ([cmd], match db cmd with
              | some e => .error e
              | none => .ok s)

/-- `ECSQLObject.delete`: requires an id, issues the delete statement keyed by
it, and — only after the statement succeeds — clears the id. -/
def ECSQLObject.delete (db : LifecycleCmd → Option ECErrorStack) (table : String)
    (s : ObjState) : List LifecycleCmd × Except ECErrorStack ObjState :=
  match s.id with
  | none => ([], .error (cannotDeleteStack table))
  | some i =>
      let cmd := LifecycleCmd.deleteRow table i
      ([cmd], match db cmd with
              | some e => .error e
              | none => .ok ⟨none⟩)

/-! ## `ECSQLQuery.getFirstObject` (`part_001`, lines 131-137) -/

/-- `getFirstObject(allowUndefined)`: overwrites the query's limit with 1,
executes `getAllObjects`, and returns `items.get(0)` — which is the first
decoded record, or `undefined` when no row matched (`getObjectWithId`'s
`item === undefined` test shows out-of-range `ECArray.get` yields
`undefined`).  `exec` abstracts `getAllObjects`'s execute-and-decode pipeline
as a function from the issued SQL text to the decoded records; the result
pairs that issued text with the returned record.  The `allowUndefined`
parameter is accepted and — exactly as in the source — never read. -/
def ECSQLQuery.getFirstObject {α : Type} (exec : String → List α) (q : ECSQLQuery)
    (allowUndefined : Bool) : Except ECErrorStack (String × Option α) :=
  let q1 := { q with limit := some 1 }
  match q1.generateSQLCommand false with
  | .error e => .error e
  | .ok cmd => .ok (cmd, (exec cmd).head?)

/-! ## Byte-level codec models

JavaScript strings passing through the value codec are lists of UTF-16 code
units; Node buffers are lists of bytes.  `bytesToHex`/`hexToBytes` model
`buffer.toString("hex")` and `Buffer.from(string, "hex")`;
`utf16ToUtf8`/`utf8ToUtf16` model `Buffer.from(string, "utf8")` and
`buffer.toString("utf8")`.  Where Node substitutes replacement characters for
malformed input, the models return `none`; the codec claims only exercise the
well-formed compositions, where the models agree with Node. -/

/-- A JavaScript string: its UTF-16 code units. -/
abbrev JsStr := List Nat

/-- The ASCII code of one lowercase hex digit (value < 16). -/
def hexDigitChar (v : Nat) : Nat :=
  if v < 10 then 48 + v else 87 + v

/-- The value of one hex digit character (upper- or lowercase). -/
def hexDigitVal (c : Nat) : Option Nat :=
  if 48 ≤ c && c ≤ 57 then some (c - 48)
  else if 97 ≤ c && c ≤ 102 then some (c - 87)
  else if 65 ≤ c && c ≤ 70 then some (c - 55)
  else none

/-- `buffer.toString("hex")`: two lowercase hex digits per byte. -/
def bytesToHex : List Nat → JsStr
  | [] => []
  | b :: rest => hexDigitChar (b / 16) :: hexDigitChar (b % 16) :: bytesToHex rest

/-- `Buffer.from(string, "hex")`: pairs of hex digits; `none` on malformed
input (an odd length or a non-digit). -/
def hexToBytes : JsStr → Option (List Nat)
  | [] => some []
  | [_] => none
  | c1 :: c2 :: rest =>
      match hexDigitVal c1, hexDigitVal c2 with
      | some v1, some v2 =>
          match hexToBytes rest with
          | some bs => some ((16 * v1 + v2) :: bs)
          | none => none
      | _, _ => none

/-- The UTF-8 bytes of one unpaired UTF-16 code unit: the ASCII, two-byte and
three-byte ranges directly, a lone surrogate half as the replacement
character `EF BF BD`. -/
def utf8Single (u : Nat) : List Nat :=
  if u < 128 then [u]
  else if u < 2048 then [192 + u / 64, 128 + u % 64]
  else if 55296 ≤ u && u < 57344 then [239, 191, 189]
  else [224 + u / 4096, 128 + u / 64 % 64, 128 + u % 64]

/-- The four UTF-8 bytes of a well-formed surrogate pair. -/
def utf8Pair (u v : Nat) : List Nat :=
  let cp := 65536 + (u - 55296) * 1024 + (v - 56320)
  [240 + cp / 262144, 128 + cp / 4096 % 64, 128 + cp / 64 % 64, 128 + cp % 64]

/-- `Buffer.from(string, "utf8")` on a list of UTF-16 code units:
well-paired surrogates become one four-byte sequence, every other unit is
encoded alone. -/
def utf16ToUtf8 : JsStr → List Nat
  | [] => []
  | [u] => utf8Single u
  | u :: v :: rest =>
      if (55296 ≤ u && u < 56320) && (56320 ≤ v && v < 57344) then
        utf8Pair u v ++ utf16ToUtf8 rest
      else utf8Single u ++ utf16ToUtf8 (v :: rest)

/-- Whether a byte is a UTF-8 continuation byte. -/
def utf8Cont (b : Nat) : Bool := 128 ≤ b && b < 192

/-- Prepend decoded units onto an optional tail. -/
def consUnits (us : List Nat) : Option JsStr → Option JsStr
  | some tail => some (us ++ tail)
  | none => none

/-- The UTF-16 units of a code point ≥ 0x10000: its surrogate pair. -/
def surrogateUnits (cp : Nat) : List Nat :=
  [55296 + (cp - 65536) / 1024, 56320 + (cp - 65536) % 1024]

mutual

/-- `buffer.toString("utf8")` producing UTF-16 code units; `none` on
malformed sequences (where Node would substitute replacement characters
instead — no claim exercises that path). -/
def utf8ToUtf16 : List Nat → Option JsStr
  | [] => some []
  | b :: rest =>
      if b < 128 then consUnits [b] (utf8ToUtf16 rest)
      else if 192 ≤ b && b < 224 then utf8Tail2 b rest
      else if 224 ≤ b && b < 240 then utf8Tail3 b rest
      else if 240 ≤ b && b < 248 then utf8Tail4 b rest
      else none

/-- The continuation byte of a two-byte sequence. -/
def utf8Tail2 (b : Nat) : List Nat → Option JsStr
  | b2 :: rest =>
      if utf8Cont b2 then consUnits [(b - 192) * 64 + (b2 - 128)] (utf8ToUtf16 rest)
      else none
  | [] => none

/-- The continuation bytes of a three-byte sequence. -/
def utf8Tail3 (b : Nat) : List Nat → Option JsStr
  | b2 :: b3 :: rest =>
      if utf8Cont b2 && utf8Cont b3 then
        consUnits [(b - 224) * 4096 + (b2 - 128) * 64 + (b3 - 128)] (utf8ToUtf16 rest)
      else none
  | _ => none

/-- The continuation bytes of a four-byte sequence (an astral code point,
delivered as its surrogate pair). -/
def utf8Tail4 (b : Nat) : List Nat → Option JsStr
  | b2 :: b3 :: b4 :: rest =>
      if (utf8Cont b2 && utf8Cont b3) && utf8Cont b4 then
        consUnits
          (surrogateUnits
            ((b - 240) * 262144 + (b2 - 128) * 4096 + (b3 - 128) * 64 + (b4 - 128)))
          (utf8ToUtf16 rest)
      else none
  | _ => none

end

/-! ## The JSON model

`JSON.stringify` / `JSON.parse` are JavaScript builtins; the codec uses them
only through the contract that parsing inverts serialization.  `Json` models
the JSON values the codec moves (numbers as integers — every number the
repository stores through the structured path is integral); `stringifyJson`
is an executable serializer emitting canonical, all-ASCII JSON text (every
string unit written as a `\uXXXX` escape, which `JSON.parse` accepts for any
JavaScript string, surrogate halves included); `jsonParse` is an executable
parser covering that canonical output. -/

/-- A JSON value: strings (and object keys) are JavaScript strings. -/
inductive Json where
  | null
  | bool (b : Bool)
  | num (n : Int)
  | str (s : JsStr)
  | arr (xs : List Json)
  | obj (kvs : List (JsStr × Json))

mutual

/-- Well-formedness: every string unit is a UTF-16 code unit (< 0x10000). -/
def jsonWF : Json → Bool
  | .null => true
  | .bool _ => true
  | .num _ => true
  | .str s => s.all (fun u => u < 65536)
  | .arr xs => jsonItemsWF xs
  | .obj kvs => jsonFieldsWF kvs

/-- `jsonWF` over array elements. -/
def jsonItemsWF : List Json → Bool
  | [] => true
  | x :: xs => jsonWF x && jsonItemsWF xs

/-- `jsonWF` over object members (key units and value). -/
def jsonFieldsWF : List (JsStr × Json) → Bool
  | [] => true
  | (k, v) :: kvs => (k.all (fun u => u < 65536) && jsonWF v) && jsonFieldsWF kvs

end

/-- Fueled worker for `natDigits`; the fuel only needs to exceed the number
of digits, and `natDigits` supplies plenty. -/
def natDigitsAux : Nat → Nat → List Nat
  | 0, _ => []
  | Nat.succ fuel, n =>
      if n < 10 then [48 + n]
      else natDigitsAux fuel (n / 10) ++ [48 + n % 10]

/-- The decimal digit characters of a natural number, most significant
first. -/
def natDigits (n : Nat) : List Nat :=
  natDigitsAux (n + 1) n

/-- The six-character escape `\uXXXX` of one UTF-16 code unit. -/
def escapeUnit (u : Nat) : List Nat :=
  [92, 117, hexDigitChar (u / 4096 % 16), hexDigitChar (u / 256 % 16),
   hexDigitChar (u / 16 % 16), hexDigitChar (u % 16)]

/-- The body of a serialized JSON string: every unit escaped. -/
def escapeUnits : JsStr → List Nat
  | [] => []
  | u :: rest => escapeUnit u ++ escapeUnits rest

/-- A serialized JSON string: quote, escaped body, quote. -/
def stringifyStr (s : JsStr) : List Nat :=
  34 :: escapeUnits s ++ [34]

/-- A serialized JSON number: minus sign for negatives, decimal digits. -/
def stringifyNum (n : Int) : List Nat :=
  if n < 0 then 45 :: natDigits (-n).toNat else natDigits n.toNat

mutual

/-- The canonical JSON text of a value (character codes). -/
def stringifyJson : Json → List Nat
  | .null => [110, 117, 108, 108]
  | .bool true => [116, 114, 117, 101]
  | .bool false => [102, 97, 108, 115, 101]
  | .num n => stringifyNum n
  | .str s => stringifyStr s
  | .arr xs => 91 :: stringifyItems xs ++ [93]
  | .obj kvs => 123 :: stringifyFields kvs ++ [125]

/-- Array elements joined by commas. -/
def stringifyItems : List Json → List Nat
  | [] => []
  | [x] => stringifyJson x
  | x :: y :: xs => stringifyJson x ++ 44 :: stringifyItems (y :: xs)

/-- Object members `"key":value` joined by commas. -/
def stringifyFields : List (JsStr × Json) → List Nat
  | [] => []
  | [(k, v)] => stringifyStr k ++ 58 :: stringifyJson v
  | (k, v) :: y :: kvs => stringifyStr k ++ 58 :: stringifyJson v ++ 44 :: stringifyFields (y :: kvs)

end

/-- Whether a character code is a decimal digit. -/
def isDigitCode (c : Nat) : Bool :=
  48 ≤ c && c ≤ 57

/-- Greedy digit run: accumulates onto `acc`, stops at the first
non-digit. -/
def parseDigits : List Nat → Nat → Nat × List Nat
  | [], acc => (acc, [])
  | c :: rest, acc =>
      if isDigitCode c then parseDigits rest (acc * 10 + (c - 48))
      else (acc, c :: rest)

/-- A natural-number literal: at least one digit, then a greedy run. -/
def parseNum : List Nat → Option (Nat × List Nat)
  | [] => none
  | c :: rest =>
      if isDigitCode c then some (parseDigits rest (c - 48))
      else none

/-- The body of a JSON string up to its closing quote: `\uXXXX` escapes are
decoded, any other character except a quote or backslash stands for
itself. -/
def parseStrBody : List Nat → Option (JsStr × List Nat)
  | [] => none
  | 34 :: rest => some ([], rest)
  | 92 :: 117 :: c1 :: c2 :: c3 :: c4 :: rest =>
      (match hexDigitVal c1, hexDigitVal c2, hexDigitVal c3, hexDigitVal c4 with
       | some v1, some v2, some v3, some v4 =>
           match parseStrBody rest with
           | some (s, r) => some ((((v1 * 16 + v2) * 16 + v3) * 16 + v4) :: s, r)
           | none => none
       | _, _, _, _ => none)
  | 92 :: _ => none
  | c :: rest =>
      match parseStrBody rest with
      | some (s, r) => some (c :: s, r)
      | none => none

mutual

/-- A fueled JSON value parser covering the canonical serializer output (and
the obvious unescaped-string extension); returns the value and the unread
suffix. -/
def parseValue : Nat → List Nat → Option (Json × List Nat)
  | 0, _ => none
  | Nat.succ fuel, input =>
      match input with
      | [] => none
      | c :: rest =>
          if c = 110 then
            match rest with
            | 117 :: 108 :: 108 :: r => some (.null, r)
            | _ => none
          else if c = 116 then
            match rest with
            | 114 :: 117 :: 101 :: r => some (.bool true, r)
            | _ => none
          else if c = 102 then
            match rest with
            | 97 :: 108 :: 115 :: 101 :: r => some (.bool false, r)
            | _ => none
          else if c = 34 then
            match parseStrBody rest with
            | some (s, r) => some (.str s, r)
            | none => none
          else if c = 91 then
            match rest with
            | 93 :: r => some (.arr [], r)
            | _ =>
                match parseItems fuel rest with
                | some (xs, r) => some (.arr xs, r)
                | none => none
          else if c = 123 then
            match rest with
            | 125 :: r => some (.obj [], r)
            | _ =>
                match parseFields fuel rest with
                | some (kvs, r) => some (.obj kvs, r)
                | none => none
          else if c = 45 then
            match parseNum rest with
            | some (n, r) => some (.num (-(n : Int)), r)
            | none => none
          else
            match parseNum (c :: rest) with
            | some (n, r) => some (.num (n : Int), r)
            | none => none

/-- One or more array elements, consuming the closing bracket. -/
def parseItems : Nat → List Nat → Option (List Json × List Nat)
  | 0, _ => none
  | Nat.succ fuel, input =>
      match parseValue fuel input with
      | none => none
      | some (x, rest) =>
          match rest with
          | 44 :: rest2 =>
              (match parseItems fuel rest2 with
               | some (xs, r) => some (x :: xs, r)
               | none => none)
          | 93 :: rest2 => some ([x], rest2)
          | _ => none

/-- One or more object members, consuming the closing brace. -/
def parseFields : Nat → List Nat → Option (List (JsStr × Json) × List Nat)
  | 0, _ => none
  | Nat.succ fuel, input =>
      match input with
      | 34 :: rest =>
          (match parseStrBody rest with
           | none => none
           | some (k, rest1) =>
               match rest1 with
               | 58 :: rest2 =>
                   (match parseValue fuel rest2 with
                    | none => none
                    | some (v, rest3) =>
                        match rest3 with
                        | 44 :: rest4 =>
                            (match parseFields fuel rest4 with
                             | some (kvs, r) => some ((k, v) :: kvs, r)
                             | none => none)
                        | 125 :: rest4 => some ([(k, v)], rest4)
                        | _ => none)
               | _ => none)
      | _ => none

end

/-- `JSON.parse` model: run the fueled parser with ample fuel and require the
whole input consumed. -/
def jsonParse (s : List Nat) : Option Json :=
  match parseValue (s.length + 1) s with
  | some (j, []) => some j
  | _ => none

/-! ## The value codec (`ECSQLObject.encode` / `decode`, `part_000`) -/

/-- `ECSQLValue`: the closed set of declarable value kinds. -/
inductive ECSQLValue where
  | string
  | number
  | boolean
  | array
  | object
  | buffer
deriving DecidableEq, Repr

/-- The text of a value kind (for interpolated error messages). -/
def ECSQLValue.text : ECSQLValue → String
  | .string => "string"
  | .number => "number"
  | .boolean => "boolean"
  | .array => "array"
  | .object => "object"
  | .buffer => "buffer"

/-- A JavaScript value held by a record property or a row cell: a string, a
number, a boolean, a structured array, a structured object, or a Node
buffer.  An absent (`undefined`) value is `Option.none` one level up. -/
inductive PropValue where
  | str (s : JsStr)
  | num (n : Int)
  | bool (b : Bool)
  | arr (xs : List Json)
  | obj (kvs : List (JsStr × Json))
  | buf (bytes : List Nat)

/-- JS truthiness of a property value (`value ? 1 : 0`). -/
def jsTruthy : PropValue → Bool
  | .str s => s ≠ []
  | .num n => n ≠ 0
  | .bool b => b
  | .arr _ => true
  | .obj _ => true
  | .buf _ => true

/-- JS truthiness with `undefined` falsy. -/
def jsTruthyOpt : Option PropValue → Bool
  | none => false
  | some v => jsTruthy v

/-- Whether the cell is strictly equal (`===`) to the number `1`. -/
def cellIsOne : Option PropValue → Bool
  | some (.num n) => n == 1
  | _ => false

/-- `JSON.stringify` of a property value, as a `Json` value: structured
arrays and objects serialize to themselves, scalars to the corresponding
JSON scalar, and a Node buffer to its `toJSON` form
`(\x7b"type":"Buffer","data":[...]\x7d)`. -/
def propToJson : PropValue → Json
  | .str s => .str s
  | .num n => .num n
  | .bool b => .bool b
  | .arr xs => .arr xs
  | .obj kvs => .obj kvs
  | .buf bytes =>
      .obj [([116, 121, 112, 101], .str [66, 117, 102, 102, 101, 114]),
            ([100, 97, 116, 97], .arr (bytes.map (fun b => Json.num b)))]

/-- The stack `ECSQLObject.handleInternalError` throws, with the message the
encode/decode catch blocks interpolate. -/
def internalConvertStack (key : String) (t : ECSQLValue) : ECErrorStack :=
  [.mk .sqlServer .internalSQLError
     ("Failed to convert " ++ key ++ " of type " ++ t.text ++ " to a Buffer."),
   .generic]

/-- A row under construction: ordered cells, a cell holding a JavaScript
value or `undefined`.  (The codec never stores SQL `NULL` into a row it
builds, so the `null`-to-`undefined` normalization at the end of `decode`
only surfaces through `JSON.parse` returning `null`, modelled in
`jsonToCell`.) -/
abbrev Row := List (String × Option PropValue)

/-- `ECMap.set`: replace the cell of an existing key in place, else append. -/
def setCell : Row → String → Option PropValue → Row
  | [], k, v => [(k, v)]
  | (k₀, v₀) :: rest, k, v =>
      if k₀ = k then (k, v) :: rest else (k₀, v₀) :: setCell rest k v

/-- `ECDictionary.get`: the stored cell, `undefined` when the key is absent
(JavaScript does not distinguish the two). -/
def rowGet : Row → String → Option PropValue
  | [], _ => none
  | (k₀, v₀) :: rest, k => if k₀ = k then v₀ else rowGet rest k

/-- One field of `ECSQLObject.encode` (lines 146-191): a `boolean`-typed
field stores `value ? 1 : 0`; an `array`/`object`-typed field stores the hex
string of the UTF-8 bytes of its JSON text (an `undefined` value makes
`Buffer.from(JSON.stringify(undefined), "utf8")` throw, which the
surrounding `catch` turns into the internal conversion error); every other
kind stores the value unchanged. -/
def encodeField (key : String) (t : ECSQLValue) (v : Option PropValue) :
    Except ECErrorStack (Option PropValue) :=
  match t with
  | .boolean => .ok (some (.num (if jsTruthyOpt v then 1 else 0)))
  | .array | .object =>
      (match v with
       | none => .error (internalConvertStack key t)
       | some pv =>
           .ok (some (.str (bytesToHex (utf16ToUtf8 (stringifyJson (propToJson pv)))))))
  | _ => .ok v

/-- The encode loop over the declared fields, accumulating cells with
`ECMap.set`. -/
def encodeFields (props : String → Option PropValue) :
    List (String × ECSQLValue) → Row → Except ECErrorStack Row
  | [], acc => .ok acc
  | (k, t) :: rest, acc =>
      match encodeField k t (props k) with
      | .error e => .error e
      | .ok cell => encodeFields props rest (setCell acc k cell)

/-- The in-memory state `encode`/`decode` read and write: the three reserved
fields and the property map.  (The reserved fields hold whatever JavaScript
value the instance carries, exactly as the source assigns them untyped.) -/
structure ECRecord where
  id : Option PropValue
  updatedAt : Option PropValue
  createdAt : Option PropValue
  props : String → Option PropValue

/-- `ECSQLObject.encode`: encode every declared field in order, then store
`id`, `updatedAt`, `createdAt`.  The base-class `overrideEncoding` and
notification hooks are no-ops and are elided. -/
def ECSQLObject.encode (types : List (String × ECSQLValue)) (r : ECRecord) :
    Except ECErrorStack Row :=
  match encodeFields r.props types [] with
  | .error e => .error e
  | .ok row =>
      .ok (setCell (setCell (setCell row "id" r.id) "updatedAt" r.updatedAt)
            "createdAt" r.createdAt)

/-- A parsed JSON value assigned into `this.props[key]`; JSON `null` becomes
the unset sentinel through the `=== null` normalization at the end of the
decode loop. -/
def jsonToCell : Json → Option PropValue
  | .null => none
  | .bool b => some (.bool b)
  | .num n => some (.num n)
  | .str s => some (.str s)
  | .arr xs => some (.arr xs)
  | .obj kvs => some (.obj kvs)

/-- `Buffer.from(value, "hex")` as `decode` applies it to a cell: a string
decodes from hex, a buffer is copied (the encoding argument is ignored for a
buffer input), anything else throws. -/
def cellToBytes (key : String) (t : ECSQLValue) :
    Option PropValue → Except ECErrorStack (List Nat)
  | some (.str s) =>
      (match hexToBytes s with
       | some bs => .ok bs
       | none => .error (internalConvertStack key t))
  | some (.buf bytes) => .ok bytes
  | _ => .error (internalConvertStack key t)

/-- One field of `ECSQLObject.decode` (lines 216-279): a `boolean`-typed
field reads `value === 1`; `array`/`object`/`buffer` fields read the cell
back into a buffer, `array`/`object` then decode UTF-8 and parse JSON (a
failure anywhere is the internal conversion error); every other kind passes
the cell through. -/
def decodeField (key : String) (t : ECSQLValue) (cell : Option PropValue) :
    Except ECErrorStack (Option PropValue) :=
  match t with
  | .boolean => .ok (some (.bool (cellIsOne cell)))
  | .array | .object =>
      (match cellToBytes key t cell with
       | .error e => .error e
       | .ok bytes =>
           match utf8ToUtf16 bytes with
           | none => .error (internalConvertStack key t)
           | some units =>
               match jsonParse units with
               | none => .error (internalConvertStack key t)
               | some j => .ok (jsonToCell j))
  | .buffer =>
      (match cellToBytes key t cell with
       | .error e => .error e
       | .ok bytes => .ok (some (.buf bytes)))
  | _ => .ok cell

/-- Pointwise update of the property map (`this.props[key] = ...`). -/
def updFun (f : String → Option PropValue) (k : String) (v : Option PropValue) :
    String → Option PropValue :=
  fun k₁ => if k₁ = k then v else f k₁

/-- The decode loop over the declared fields, starting from the reset
(empty) property map. -/
def decodeFields (row : Row) :
    List (String × ECSQLValue) → (String → Option PropValue) →
    Except ECErrorStack (String → Option PropValue)
  | [], acc => .ok acc
  | (k, t) :: rest, acc =>
      match decodeField k t (rowGet row k) with
      | .error e => .error e
      | .ok cell => decodeFields row rest (updFun acc k cell)

/-- `ECSQLObject.decode`: reset the property map, decode every declared
field, and take `id`, `updatedAt`, `createdAt` directly from the row (the
loop handles those three keys, appended after the declared ones, by direct
assignment).  The base-class `overrideDecoding` and notification hooks are
no-ops and are elided. -/
def ECSQLObject.decode (types : List (String × ECSQLValue)) (row : Row) :
    Except ECErrorStack ECRecord :=
  match decodeFields row types (fun _ => none) with
  | .error e => .error e
  | .ok props =>
      .ok ⟨rowGet row "id", rowGet row "updatedAt", rowGet row "createdAt", props⟩

/-- Whether a value belongs to a declared kind and is well formed (its
JavaScript strings hold UTF-16 code units). -/
def hasKindWF : PropValue → ECSQLValue → Bool
  | .str _, .string => true
  | .num _, .number => true
  | .bool _, .boolean => true
  | .arr xs, .array => jsonItemsWF xs
  | .obj kvs, .object => jsonFieldsWF kvs
  | .buf bytes, .buffer => bytes.all (fun b => b < 256)
  | _, _ => false

/-! ## The response formatter (`src/ts/query/ECSQLResponse.ts`) -/

/-- A cell of a wrapped response row: the driver delivers strings, numbers
and booleans; formatting may replace a string by a parsed JSON structure. -/
inductive RespCell where
  | str (s : JsStr)
  | num (n : Int)
  | bool (b : Bool)
  | json (j : Json)

/-- A maximal run of `%XX` escapes: the decoded bytes and the rest; `none`
when a `%` is not followed by two hex digits. -/
def uriTakeBytes : JsStr → Option (List Nat × JsStr)
  | 37 :: c₁ :: c₂ :: rest =>
      (match hexDigitVal c₁, hexDigitVal c₂ with
       | some v₁, some v₂ =>
           (match uriTakeBytes rest with
            | some (bs, r) => some ((16 * v₁ + v₂) :: bs, r)
            | none => none)
       | _, _ => none)
  | 37 :: _ => none
  | other => some ([], other)

/-- Fueled worker for `uriDecode`. -/
def uriDecodeAux : Nat → JsStr → Option JsStr
  | 0, _ => none
  | Nat.succ _, [] => some []
  | Nat.succ fuel, 37 :: rest =>
      (match uriTakeBytes (37 :: rest) with
       | none => none
       | some (bs, r) =>
           match utf8ToUtf16 bs with
           | none => none
           | some us =>
               match uriDecodeAux fuel r with
               | some tail => some (us ++ tail)
               | none => none)
  | Nat.succ fuel, c :: rest =>
      (match uriDecodeAux fuel rest with
       | some tail => some (c :: tail)
       | none => none)

/-- `decodeURIComponent`: each maximal `%XX` run is UTF-8-decoded, every
other character stands for itself; `none` models the thrown `URIError` on a
malformed escape or malformed UTF-8. -/
def uriDecode (s : JsStr) : Option JsStr :=
  uriDecodeAux (s.length + 1) s

/-- The per-cell formatting of the `ECSQLResponse` constructor: a string is
URI-decoded (a `URIError` propagates — the decoding sits outside the `try`)
and replaced by its parsed JSON when the decoded text parses, else kept as
the decoded string; a non-string cell passes through unchanged. -/
def formatRespValue : RespCell → Option RespCell
  | .str s =>
      (match uriDecode s with
       | none => none
       | some d =>
           match jsonParse d with
           | some j => some (.json j)
           | none => some (.str d))
  | v => some v

/-- The key loop of the `ECSQLResponse` constructor over the raw row. -/
def responseFormat : List (String × RespCell) → Option (List (String × RespCell))
  | [] => some []
  | (k, v) :: rest =>
      match formatRespValue v with
      | none => none
      | some v₁ =>
          match responseFormat rest with
          | some tail => some ((k, v₁) :: tail)
          | none => none

/-! ## Auxiliary measures and specification relations used by the theorems -/

/-- Whether the input does not begin with a decimal digit (the boundary
condition under which the greedy number parser stops exactly at a serialized
number's end). -/
def headNotDigit : List Nat → Bool
  | [] => true
  | c :: _ => !isDigitCode c

mutual

/-- A fuel measure for `parseValue`: enough fuel to parse the value's
canonical text. -/
def sizeJson : Json → Nat
  | .null => 1
  | .bool _ => 1
  | .num _ => 1
  | .str _ => 1
  | .arr xs => sizeItems xs + 1
  | .obj kvs => sizeFields kvs + 1

/-- The fuel measure over array elements. -/
def sizeItems : List Json → Nat
  | [] => 0
  | x :: xs => sizeJson x + sizeItems xs + 1

/-- The fuel measure over object members. -/
def sizeFields : List (JsStr × Json) → Nat
  | [] => 0
  | (_, v) :: kvs => sizeJson v + sizeFields kvs + 1

end

/-- The cell `encodeField` produces for a field whose value has its declared
kind (its `.ok` payload; the error case, unreachable under that hypothesis,
is mapped to `none`). -/
def encCellVal (props : String → Option PropValue) (k : String) (t : ECSQLValue) :
    Option PropValue :=
  match encodeField k t (props k) with
  | .ok cell => cell
  | .error _ => none

/-- The specification relation of the `ECSQLResponse` constructor: a string
cell is URI-decoded and then replaced by its parsed JSON structure when the
decoded text parses as JSON, else kept as the decoded string; every other
cell passes through unchanged. -/
def cellFormatted : RespCell → RespCell → Prop
  | .str s, out =>
      ∃ d, uriDecode s = some d ∧
        ((∃ j, jsonParse d = some j ∧ out = .json j) ∨
         (jsonParse d = none ∧ out = .str d))
  | v, out => out = v

/-- Witness fixture: the `user` table schema of the repository's tests,
extended with structured and buffer fields. -/
def wSchema : List (String × ECSQLValue) :=
  [("firstName", .string), ("age", .number), ("isMale", .boolean),
   ("tags", .array), ("meta", .object), ("blob", .buffer)]

/-- Witness fixture: a property assignment for `wSchema`. -/
def wProps : String → Option PropValue := fun k =>
  if k = "firstName" then some (.str [69, 108, 105, 106, 97, 104])
  else if k = "age" then some (.num 20)
  else if k = "isMale" then some (.bool true)
  else if k = "tags" then some (.arr [.num 1, .str [97], .bool false, .null])
  else if k = "meta" then some (.obj [([107, 49], .arr []), ([107, 50], .obj [])])
  else if k = "blob" then some (.buf [0, 255, 16])
  else none

/-- Witness fixture: a persisted record over `wSchema`. -/
def wRec : ECRecord :=
  ⟨some (.str [105, 100, 49]), some (.num 1556), some (.num 1555), wProps⟩

/-- Witness fixture: the duplicate-email driver error of the repository's
README scenario. -/
def c4Err : SQLErrorInfo :=
  ⟨.num 1062,
   "Duplicate entry " ++ sq ++ "a@b.com" ++ sq ++ " for key " ++ sq ++ "user_email_uindex" ++ sq,
   "dup"⟩

/-! ## Theorems -/


theorem hexDigitVal_hexDigitChar (v : Nat) (h : v < 16) :
    hexDigitVal (hexDigitChar v) = some v := by
  unfold hexDigitChar
  by_cases h10 : v < 10
  · rw [if_pos h10]
    unfold hexDigitVal
    rw [if_pos (by simp; omega)]
    congr 1
    omega
  · rw [if_neg h10]
    unfold hexDigitVal
    rw [if_neg (by simp; omega), if_pos (by simp; omega)]
    congr 1
    omega

theorem hexToBytes_bytesToHex (bs : List Nat) (h : ∀ b ∈ bs, b < 256) :
    hexToBytes (bytesToHex bs) = some bs := by
  induction bs with
  | nil => rfl
  | cons b rest ih =>
      have hb : b < 256 := h b (by simp)
      have h1 : b / 16 < 16 := by omega
      have h2 : b % 16 < 16 := by omega
      rw [bytesToHex, hexToBytes]
      rw [hexDigitVal_hexDigitChar _ h1, hexDigitVal_hexDigitChar _ h2]
      rw [ih (fun x hx => h x (by simp [hx]))]
      have : 16 * (b / 16) + b % 16 = b := by omega
      simp [this]

theorem utf16ToUtf8_ascii (s : JsStr) (h : ∀ u ∈ s, u < 128) : utf16ToUtf8 s = s := by
  induction s with
  | nil => rfl
  | cons u rest ih =>
      cases rest with
      | nil =>
          have hu : u < 128 := h u (by simp)
          simp [utf16ToUtf8, utf8Single, hu]
      | cons v rest2 =>
          have hu : u < 128 := h u (by simp)
          have hsur : ¬ ((55296 ≤ u && u < 56320) && (56320 ≤ v && v < 57344)) = true := by
            simp; omega
          rw [utf16ToUtf8, if_neg hsur]
          rw [ih (fun x hx => h x (by simp at hx ⊢; tauto))]
          simp [utf8Single, hu]

theorem utf8ToUtf16_ascii (bs : List Nat) (h : ∀ b ∈ bs, b < 128) :
    utf8ToUtf16 bs = some bs := by
  induction bs with
  | nil => rfl
  | cons b rest ih =>
      have hb : b < 128 := h b (by simp)
      rw [utf8ToUtf16]
      rw [if_pos (by simpa using hb)]
      rw [ih (fun x hx => h x (by simp [hx]))]
      rfl


theorem natDigitsAux_all_digits (fuel : Nat) :
    ∀ n, n < fuel → ∀ c ∈ natDigitsAux fuel n, isDigitCode c = true := by
  induction fuel with
  | zero => intro n hn; omega
  | succ fuel ih =>
      intro n _ c hc
      rw [natDigitsAux] at hc
      by_cases h10 : n < 10
      · rw [if_pos h10] at hc
        simp at hc
        subst hc
        simp [isDigitCode]
        omega
      · rw [if_neg h10] at hc
        rcases List.mem_append.mp hc with h1 | h2
        · exact ih (n / 10) (by omega) c h1
        · simp at h2
          subst h2
          simp [isDigitCode]
          omega

theorem natDigitsAux_ne_nil (fuel n : Nat) (h : n < fuel) : natDigitsAux fuel n ≠ [] := by
  cases fuel with
  | zero => omega
  | succ fuel =>
      rw [natDigitsAux]
      by_cases h10 : n < 10
      · simp [if_pos h10]
      · simp [if_neg h10]

theorem natDigitsAux_foldl (fuel : Nat) :
    ∀ n acc, n < fuel →
      (natDigitsAux fuel n).foldl (fun a d => a * 10 + (d - 48)) acc
        = acc * 10 ^ (natDigitsAux fuel n).length + n := by
  induction fuel with
  | zero => intro n acc hn; omega
  | succ fuel ih =>
      intro n acc _
      rw [natDigitsAux]
      by_cases h10 : n < 10
      · rw [if_pos h10]
        simp
      · rw [if_neg h10]
        rw [List.foldl_append, List.length_append]
        rw [ih (n / 10) acc (by omega)]
        simp only [List.foldl_cons, List.foldl_nil, List.length_cons, List.length_nil]
        have h48 : 48 + n % 10 - 48 = n % 10 := by omega
        rw [h48]
        rw [pow_succ]
        have := Nat.div_add_mod n 10
        ring_nf
        omega

theorem parseDigits_append (ds : List Nat) :
    ∀ acc rest, (∀ d ∈ ds, isDigitCode d = true) → headNotDigit rest = true →
      parseDigits (ds ++ rest) acc = (ds.foldl (fun a d => a * 10 + (d - 48)) acc, rest) := by
  induction ds with
  | nil =>
      intro acc rest _ hr
      cases rest with
      | nil => rfl
      | cons c t =>
          simp [headNotDigit] at hr
          simp [parseDigits, hr]
  | cons d ds ih =>
      intro acc rest hd hr
      have hdd : isDigitCode d = true := hd d (by simp)
      rw [List.cons_append, parseDigits, if_pos hdd]
      rw [ih _ rest (fun x hx => hd x (by simp [hx])) hr]
      rfl

theorem parseNum_natDigits (n : Nat) (rest : List Nat) (hr : headNotDigit rest = true) :
    parseNum (natDigits n ++ rest) = some (n, rest) := by
  unfold natDigits
  rcases hds : natDigitsAux (n + 1) n with _ | ⟨d, ds⟩
  · exact absurd hds (natDigitsAux_ne_nil _ _ (by omega))
  · have hall := natDigitsAux_all_digits (n + 1) n (by omega)
    rw [hds] at hall
    have hd : isDigitCode d = true := hall d (by simp)
    rw [List.cons_append, parseNum, if_pos hd]
    rw [parseDigits_append ds _ rest (fun x hx => hall x (by simp [hx])) hr]
    have hfold := natDigitsAux_foldl (n + 1) n 0 (by omega)
    rw [hds] at hfold
    simp only [List.foldl_cons] at hfold
    simp only [Nat.zero_mul, Nat.zero_add] at hfold
    rw [hfold]


theorem hexDigitChar_lt (v : Nat) (h : v < 16) : hexDigitChar v < 128 := by
  unfold hexDigitChar
  split_ifs <;> omega

theorem escapeUnit_lt (u : Nat) : ∀ c ∈ escapeUnit u, c < 128 := by
  intro c hc
  unfold escapeUnit at hc
  have m1 : u / 4096 % 16 < 16 := Nat.mod_lt _ (by omega)
  have m2 : u / 256 % 16 < 16 := Nat.mod_lt _ (by omega)
  have m3 : u / 16 % 16 < 16 := Nat.mod_lt _ (by omega)
  have m4 : u % 16 < 16 := Nat.mod_lt _ (by omega)
  simp at hc
  rcases hc with h | h | h | h | h | h <;> subst h <;>
    first
      | omega
      | exact hexDigitChar_lt _ (by assumption)

theorem escapeUnits_lt (s : JsStr) : ∀ c ∈ escapeUnits s, c < 128 := by
  induction s with
  | nil => intro c hc; simp [escapeUnits] at hc
  | cons u rest ih =>
      intro c hc
      rw [escapeUnits] at hc
      rcases List.mem_append.mp hc with h | h
      · exact escapeUnit_lt u c h
      · exact ih c h

theorem stringifyStr_lt (s : JsStr) : ∀ c ∈ stringifyStr s, c < 128 := by
  intro c hc
  rw [stringifyStr] at hc
  rcases List.mem_cons.mp hc with rfl | hc
  · omega
  · rcases List.mem_append.mp hc with h | h
    · exact escapeUnits_lt s c h
    · simp at h; omega

theorem natDigits_lt (n : Nat) : ∀ c ∈ natDigits n, c < 128 := by
  intro c hc
  have := natDigitsAux_all_digits (n + 1) n (by omega) c hc
  simp [isDigitCode] at this
  omega

theorem stringifyNum_lt (n : Int) : ∀ c ∈ stringifyNum n, c < 128 := by
  intro c hc
  rw [stringifyNum] at hc
  split_ifs at hc
  · simp only [List.mem_cons] at hc
    rcases hc with rfl | hc
    · omega
    · exact natDigits_lt _ c hc
  · exact natDigits_lt _ c hc

theorem natDigits_head_digit (n : Nat) :
    ∃ d t, natDigits n = d :: t ∧ 48 ≤ d ∧ d ≤ 57 := by
  rcases hds : natDigits n with _ | ⟨d, t⟩
  · exact absurd hds (natDigitsAux_ne_nil _ _ (by omega))
  · have hall := natDigitsAux_all_digits (n + 1) n (by omega)
    unfold natDigits at hds
    rw [hds] at hall
    have := hall d (by simp)
    simp [isDigitCode] at this
    exact ⟨d, t, rfl, this.1, this.2⟩

theorem stringifyJson_head (j : Json) :
    ∃ c t, stringifyJson j = c :: t ∧ c ≠ 93 ∧ c ≠ 125 := by
  cases j with
  | null => exact ⟨110, _, rfl, by omega, by omega⟩
  | bool b => cases b with
      | true => exact ⟨116, _, rfl, by omega, by omega⟩
      | false => exact ⟨102, _, rfl, by omega, by omega⟩
  | num n =>
      rw [stringifyJson, stringifyNum]
      by_cases hn : n < 0
      · rw [if_pos hn]
        exact ⟨45, _, rfl, by omega, by omega⟩
      · rw [if_neg hn]
        obtain ⟨d, t, hdt, h1, h2⟩ := natDigits_head_digit n.toNat
        exact ⟨d, t, hdt, by omega, by omega⟩
  | str s => exact ⟨34, _, rfl, by omega, by omega⟩
  | arr xs => exact ⟨91, _, rfl, by omega, by omega⟩
  | obj kvs => exact ⟨123, _, rfl, by omega, by omega⟩

theorem parseStrBody_escape (s : JsStr) :
    ∀ rest, (∀ u ∈ s, u < 65536) →
      parseStrBody (escapeUnits s ++ 34 :: rest) = some (s, rest) := by
  induction s with
  | nil => intro rest _; rfl
  | cons u s ih =>
      intro rest hu
      have hu0 : u < 65536 := hu u (by simp)
      rw [escapeUnits, escapeUnit]
      have m1 : u / 4096 % 16 < 16 := Nat.mod_lt _ (by omega)
      have m2 : u / 256 % 16 < 16 := Nat.mod_lt _ (by omega)
      have m3 : u / 16 % 16 < 16 := Nat.mod_lt _ (by omega)
      have m4 : u % 16 < 16 := Nat.mod_lt _ (by omega)
      simp only [List.cons_append, List.nil_append]
      rw [parseStrBody]
      rw [hexDigitVal_hexDigitChar _ m1, hexDigitVal_hexDigitChar _ m2,
          hexDigitVal_hexDigitChar _ m3, hexDigitVal_hexDigitChar _ m4]
      rw [ih rest (fun x hx => hu x (by simp [hx]))]
      have harith : ((u / 4096 % 16 * 16 + u / 256 % 16) * 16 + u / 16 % 16) * 16 + u % 16 = u := by
        omega
      simp [harith]

theorem sizeJson_pos (j : Json) : 1 ≤ sizeJson j := by
  cases j <;> rw [sizeJson] <;> omega

theorem sizeItems_pos (x : Json) (xs : List Json) : 1 ≤ sizeItems (x :: xs) := by
  rw [sizeItems]; omega

theorem sizeFields_pos (kv : JsStr × Json) (kvs : List (JsStr × Json)) :
    1 ≤ sizeFields (kv :: kvs) := by
  rcases kv with ⟨k, v⟩
  rw [sizeFields]; omega

theorem stringify_ascii_bundle : ∀ N : Nat,
    (∀ j, sizeJson j ≤ N → ∀ c ∈ stringifyJson j, c < 128) ∧
    (∀ xs, sizeItems xs ≤ N → ∀ c ∈ stringifyItems xs, c < 128) ∧
    (∀ kvs, sizeFields kvs ≤ N → ∀ c ∈ stringifyFields kvs, c < 128) := by
  intro N
  induction N with
  | zero =>
      refine ⟨fun j hj => absurd hj (by have := sizeJson_pos j; omega), ?_, ?_⟩
      · intro xs hxs c hc
        cases xs with
        | nil => simp [stringifyItems] at hc
        | cons x t => rw [sizeItems] at hxs; omega
      · intro kvs hkvs c hc
        cases kvs with
        | nil => simp [stringifyFields] at hc
        | cons kv t =>
            rcases kv with ⟨k, v⟩
            rw [sizeFields] at hkvs
            omega
  | succ N ih =>
      obtain ⟨ihJ, ihI, ihF⟩ := ih
      refine ⟨?_, ?_, ?_⟩
      · intro j hj c hc
        cases j with
        | null =>
            rw [stringifyJson] at hc
            simp only [List.mem_cons, List.not_mem_nil, or_false] at hc
            rcases hc with rfl | rfl | rfl | rfl <;> omega
        | bool b =>
            cases b <;> rw [stringifyJson] at hc <;>
              simp only [List.mem_cons, List.not_mem_nil, or_false] at hc
            all_goals rcases hc with rfl | hc <;> omega
        | num n => exact stringifyNum_lt n c (by rwa [stringifyJson] at hc)
        | str s => exact stringifyStr_lt s c (by rwa [stringifyJson] at hc)
        | arr xs =>
            rw [stringifyJson] at hc
            rw [sizeJson] at hj
            rcases List.mem_cons.mp hc with rfl | hc
            · omega
            · rcases List.mem_append.mp hc with h | h
              · exact ihI xs (by omega) c h
              · simp at h; omega
        | obj kvs =>
            rw [stringifyJson] at hc
            rw [sizeJson] at hj
            rcases List.mem_cons.mp hc with rfl | hc
            · omega
            · rcases List.mem_append.mp hc with h | h
              · exact ihF kvs (by omega) c h
              · simp at h; omega
      · intro xs hxs c hc
        cases xs with
        | nil => simp [stringifyItems] at hc
        | cons x t =>
            rw [sizeItems] at hxs
            cases t with
            | nil =>
                rw [stringifyItems] at hc
                exact ihJ x (by have := sizeJson_pos x; omega) c hc
            | cons y t2 =>
                rw [stringifyItems] at hc
                rcases List.mem_append.mp hc with h | h
                · exact ihJ x (by have := sizeItems_pos y t2; omega) c h
                · rcases List.mem_cons.mp h with rfl | h
                  · omega
                  · exact ihI (y :: t2) (by have := sizeJson_pos x; omega) c h
      · intro kvs hkvs c hc
        cases kvs with
        | nil => simp [stringifyFields] at hc
        | cons kv t =>
            rcases kv with ⟨k, v⟩
            rw [sizeFields] at hkvs
            cases t with
            | nil =>
                rw [stringifyFields] at hc
                rcases List.mem_append.mp hc with h | h
                · exact stringifyStr_lt k c h
                · rcases List.mem_cons.mp h with rfl | h
                  · omega
                  · exact ihJ v (by omega) c h
            | cons kv2 t2 =>
                rw [stringifyFields] at hc
                rcases List.mem_append.mp hc with h | h
                · rcases List.mem_append.mp h with h1 | h1
                  · exact stringifyStr_lt k c h1
                  · rcases List.mem_cons.mp h1 with rfl | h1
                    · omega
                    · exact ihJ v (by have := sizeFields_pos kv2 t2; omega) c h1
                · rcases List.mem_cons.mp h with rfl | h
                  · omega
                  · exact ihF (kv2 :: t2) (by have := sizeJson_pos v; omega) c h

theorem stringifyJson_ascii (j : Json) : ∀ c ∈ stringifyJson j, c < 128 :=
  (stringify_ascii_bundle (sizeJson j)).1 j le_rfl

theorem size_le_length_bundle : ∀ N : Nat,
    (∀ j, sizeJson j ≤ N → sizeJson j ≤ (stringifyJson j).length) ∧
    (∀ xs, sizeItems xs ≤ N → sizeItems xs ≤ (stringifyItems xs).length + 1) ∧
    (∀ kvs, sizeFields kvs ≤ N → sizeFields kvs ≤ (stringifyFields kvs).length + 1) := by
  intro N
  induction N with
  | zero =>
      refine ⟨fun j hj => absurd hj (by have := sizeJson_pos j; omega), ?_, ?_⟩
      · intro xs hxs
        cases xs with
        | nil => rw [sizeItems]; omega
        | cons x t => rw [sizeItems] at hxs; omega
      · intro kvs hkvs
        cases kvs with
        | nil => rw [sizeFields]; omega
        | cons kv t => rcases kv with ⟨k, v⟩; rw [sizeFields] at hkvs; omega
  | succ N ih =>
      obtain ⟨ihJ, ihI, ihF⟩ := ih
      refine ⟨?_, ?_, ?_⟩
      · intro j hj
        cases j with
        | null => rw [sizeJson, stringifyJson]; simp
        | bool b => cases b <;> rw [sizeJson, stringifyJson] <;> simp
        | num n =>
            rw [sizeJson]
            have h1 : stringifyJson ((Json.num n)) = stringifyNum n := by rw [stringifyJson]
            rw [h1, stringifyNum]
            split_ifs
            · simp
            · have := natDigitsAux_ne_nil (n.toNat + 1) n.toNat (by omega)
              unfold natDigits
              rcases h : natDigitsAux (n.toNat + 1) n.toNat with _ | ⟨d, t⟩
              · exact absurd h this
              · simp
        | str s => rw [sizeJson, stringifyJson, stringifyStr]; simp
        | arr xs =>
            rw [sizeJson, stringifyJson]
            rw [sizeJson] at hj
            have := ihI xs (by omega)
            simp only [List.length_cons, List.length_append, List.length_singleton]
            omega
        | obj kvs =>
            rw [sizeJson, stringifyJson]
            rw [sizeJson] at hj
            have := ihF kvs (by omega)
            simp only [List.length_cons, List.length_append, List.length_singleton]
            omega
      · intro xs hxs
        cases xs with
        | nil => rw [sizeItems]; omega
        | cons x t =>
            rw [sizeItems] at hxs ⊢
            cases t with
            | nil =>
                rw [stringifyItems, sizeItems]
                have := ihJ x (by have := sizeJson_pos x; omega)
                omega
            | cons y t2 =>
                rw [stringifyItems]
                have h1 := ihJ x (by have := sizeItems_pos y t2; omega)
                have h2 := ihI (y :: t2) (by have := sizeJson_pos x; omega)
                simp only [List.length_append, List.length_cons]
                omega
      · intro kvs hkvs
        cases kvs with
        | nil => rw [sizeFields]; omega
        | cons kv t =>
            rcases kv with ⟨k, v⟩
            rw [sizeFields] at hkvs ⊢
            cases t with
            | nil =>
                rw [stringifyFields, sizeFields]
                have := ihJ v (by omega)
                simp only [List.length_append, List.length_cons]
                omega
            | cons kv2 t2 =>
                rw [stringifyFields]
                have h1 := ihJ v (by have := sizeFields_pos kv2 t2; omega)
                have h2 := ihF (kv2 :: t2) (by have := sizeJson_pos v; omega)
                simp only [List.length_append, List.length_cons]
                omega

theorem sizeJson_le_length (j : Json) : sizeJson j ≤ (stringifyJson j).length :=
  (size_le_length_bundle (sizeJson j)).1 j le_rfl

theorem parseValue_red_null (fuel : Nat) (l : List Nat) :
    parseValue (fuel + 1) (110 :: l) =
      (match l with
       | 117 :: 108 :: 108 :: r => some (.null, r)
       | _ => none) := rfl

theorem parseValue_red_true (fuel : Nat) (l : List Nat) :
    parseValue (fuel + 1) (116 :: l) =
      (match l with
       | 114 :: 117 :: 101 :: r => some (.bool true, r)
       | _ => none) := rfl

theorem parseValue_red_false (fuel : Nat) (l : List Nat) :
    parseValue (fuel + 1) (102 :: l) =
      (match l with
       | 97 :: 108 :: 115 :: 101 :: r => some (.bool false, r)
       | _ => none) := rfl

theorem parseValue_red_str (fuel : Nat) (l : List Nat) :
    parseValue (fuel + 1) (34 :: l) =
      (match parseStrBody l with
       | some (s, r) => some (.str s, r)
       | none => none) := rfl

theorem parseValue_red_arr (fuel : Nat) (l : List Nat) :
    parseValue (fuel + 1) (91 :: l) =
      (match l with
       | 93 :: r => some (.arr [], r)
       | _ =>
           match parseItems fuel l with
           | some (xs, r) => some (.arr xs, r)
           | none => none) := rfl

theorem parseValue_red_obj (fuel : Nat) (l : List Nat) :
    parseValue (fuel + 1) (123 :: l) =
      (match l with
       | 125 :: r => some (.obj [], r)
       | _ =>
           match parseFields fuel l with
           | some (kvs, r) => some (.obj kvs, r)
           | none => none) := rfl

theorem parseValue_red_neg (fuel : Nat) (l : List Nat) :
    parseValue (fuel + 1) (45 :: l) =
      (match parseNum l with
       | some (n, r) => some (.num (-(n : Int)), r)
       | none => none) := rfl

theorem parseValue_red_digit (fuel : Nat) (c : Nat) (l : List Nat)
    (h1 : 48 ≤ c) (h2 : c ≤ 57) :
    parseValue (fuel + 1) (c :: l) =
      (match parseNum (c :: l) with
       | some (n, r) => some (.num (n : Int), r)
       | none => none) := by
  interval_cases c <;> rfl

theorem parseItems_red (fuel : Nat) (l : List Nat) :
    parseItems (fuel + 1) l =
      (match parseValue fuel l with
       | none => none
       | some (x, rest) =>
           match rest with
           | 44 :: rest2 =>
               (match parseItems fuel rest2 with
                | some (xs, r) => some (x :: xs, r)
                | none => none)
           | 93 :: rest2 => some ([x], rest2)
           | _ => none) := rfl

theorem parseFields_red (fuel : Nat) (l : List Nat) :
    parseFields (fuel + 1) (34 :: l) =
      (match parseStrBody l with
       | none => none
       | some (k, rest1) =>
           match rest1 with
           | 58 :: rest2 =>
               (match parseValue fuel rest2 with
                | none => none
                | some (v, rest3) =>
                    match rest3 with
                    | 44 :: rest4 =>
                        (match parseFields fuel rest4 with
                         | some (kvs, r) => some ((k, v) :: kvs, r)
                         | none => none)
                    | 125 :: rest4 => some ([(k, v)], rest4)
                    | _ => none)
           | _ => none) := rfl

theorem parse_json_null (fuel : Nat) (rest : List Nat) :
    parseValue (fuel + 1) (stringifyJson .null ++ rest) = some (.null, rest) := by
  rw [stringifyJson]
  simp only [List.cons_append, List.nil_append]
  rw [parseValue_red_null]

theorem parse_json_bool (fuel : Nat) (b : Bool) (rest : List Nat) :
    parseValue (fuel + 1) (stringifyJson (.bool b) ++ rest) = some (.bool b, rest) := by
  cases b
  · rw [stringifyJson]
    simp only [List.cons_append, List.nil_append]
    rw [parseValue_red_false]
  · rw [stringifyJson]
    simp only [List.cons_append, List.nil_append]
    rw [parseValue_red_true]

theorem parse_json_num (fuel : Nat) (n : Int) (rest : List Nat)
    (hrest : headNotDigit rest = true) :
    parseValue (fuel + 1) (stringifyJson (.num n) ++ rest) = some (.num n, rest) := by
  rw [stringifyJson, stringifyNum]
  by_cases hn : n < 0
  · rw [if_pos hn]
    simp only [List.cons_append]
    rw [parseValue_red_neg]
    rw [parseNum_natDigits _ rest hrest]
    have h : -(((-n).toNat : Nat) : Int) = n := by omega
    exact congrArg (fun m => some (Json.num m, rest)) h
  · rw [if_neg hn]
    obtain ⟨d, t, hdt, hd1, hd2⟩ := natDigits_head_digit n.toNat
    rw [hdt]
    simp only [List.cons_append]
    rw [parseValue_red_digit fuel d _ hd1 hd2]
    have hpn : parseNum (d :: (t ++ rest)) = some (n.toNat, rest) := by
      have := parseNum_natDigits n.toNat rest hrest
      rwa [hdt, List.cons_append] at this
    rw [hpn]
    have h : ((n.toNat : Nat) : Int) = n := by omega
    exact congrArg (fun m => some (Json.num m, rest)) h

theorem parse_json_str (fuel : Nat) (s : JsStr) (rest : List Nat)
    (hwf : ∀ u ∈ s, u < 65536) :
    parseValue (fuel + 1) (stringifyJson (.str s) ++ rest) = some (.str s, rest) := by
  rw [stringifyJson, stringifyStr]
  simp only [List.cons_append, List.append_assoc, List.singleton_append, List.nil_append]
  rw [parseValue_red_str]
  rw [parseStrBody_escape s rest hwf]

theorem stringifyItems_head (x : Json) (xs : List Json) :
    ∃ c t, stringifyItems (x :: xs) = c :: t ∧ c ≠ 93 ∧ c ≠ 125 := by
  obtain ⟨c, t, hct, h93, h125⟩ := stringifyJson_head x
  cases xs with
  | nil => exact ⟨c, t, by rw [stringifyItems, hct], h93, h125⟩
  | cons y ys =>
      refine ⟨c, t ++ 44 :: stringifyItems (y :: ys), ?_, h93, h125⟩
      rw [stringifyItems, hct, List.cons_append]

theorem stringifyFields_head (kv : JsStr × Json) (kvs : List (JsStr × Json)) :
    ∃ t, stringifyFields (kv :: kvs) = 34 :: t := by
  rcases kv with ⟨k, v⟩
  cases kvs with
  | nil =>
      rw [stringifyFields, stringifyStr]
      refine ⟨(escapeUnits k ++ [34]) ++ 58 :: stringifyJson v, ?_⟩
      simp only [List.cons_append]
  | cons kv2 t2 =>
      rw [stringifyFields, stringifyStr]
      refine ⟨((escapeUnits k ++ [34]) ++ 58 :: stringifyJson v) ++
        44 :: stringifyFields (kv2 :: t2), ?_⟩
      simp only [List.cons_append]

theorem parse_bundle : ∀ fuel : Nat,
    (∀ j rest, jsonWF j = true → sizeJson j ≤ fuel → headNotDigit rest = true →
       parseValue fuel (stringifyJson j ++ rest) = some (j, rest)) ∧
    (∀ xs rest, xs ≠ [] → jsonItemsWF xs = true → sizeItems xs ≤ fuel →
       parseItems fuel (stringifyItems xs ++ 93 :: rest) = some (xs, rest)) ∧
    (∀ kvs rest, kvs ≠ [] → jsonFieldsWF kvs = true → sizeFields kvs ≤ fuel →
       parseFields fuel (stringifyFields kvs ++ 125 :: rest) = some (kvs, rest)) := by
  intro fuel
  induction fuel with
  | zero =>
      refine ⟨fun j _ _ hsz _ => absurd hsz (by have := sizeJson_pos j; omega), ?_, ?_⟩
      · intro xs _ hne _ hsz
        cases xs with
        | nil => exact absurd rfl hne
        | cons x t => rw [sizeItems] at hsz; omega
      · intro kvs _ hne _ hsz
        cases kvs with
        | nil => exact absurd rfl hne
        | cons kv t => rcases kv with ⟨k, v⟩; rw [sizeFields] at hsz; omega
  | succ fuel ih =>
      obtain ⟨ihV, ihI, ihF⟩ := ih
      refine ⟨?_, ?_, ?_⟩
      · intro j rest hwf hsz hrest
        cases j with
        | null => exact parse_json_null fuel rest
        | bool b => exact parse_json_bool fuel b rest
        | num n => exact parse_json_num fuel n rest hrest
        | str s =>
            rw [jsonWF] at hwf
            simp only [List.all_eq_true, decide_eq_true_eq] at hwf
            exact parse_json_str fuel s rest hwf
        | arr xs =>
            rw [jsonWF] at hwf
            rw [sizeJson] at hsz
            cases xs with
            | nil =>
                rw [stringifyJson, stringifyItems]
                simp only [List.nil_append, List.cons_append, List.singleton_append]
                rw [parseValue_red_arr]
            | cons x xs =>
                rw [stringifyJson]
                simp only [List.cons_append, List.append_assoc, List.singleton_append,
                  List.nil_append]
                rw [parseValue_red_arr]
                obtain ⟨c, t, hct, h93, _⟩ := stringifyItems_head x xs
                rw [hct, List.cons_append]
                have hitems := ihI (x :: xs) rest (by simp) hwf (by
                  rw [sizeItems] at hsz ⊢; omega)
                rw [hct, List.cons_append] at hitems
                split
                · rename_i r heq
                  injection heq with h1 _
                  exact absurd h1 h93
                · rw [hitems]
        | obj kvs =>
            rw [jsonWF] at hwf
            rw [sizeJson] at hsz
            cases kvs with
            | nil =>
                rw [stringifyJson, stringifyFields]
                simp only [List.nil_append, List.cons_append, List.singleton_append]
                rw [parseValue_red_obj]
            | cons kv kvs =>
                rw [stringifyJson]
                simp only [List.cons_append, List.append_assoc, List.singleton_append,
                  List.nil_append]
                rw [parseValue_red_obj]
                obtain ⟨t, ht⟩ := stringifyFields_head kv kvs
                rw [ht, List.cons_append]
                have hfields := ihF (kv :: kvs) rest (by simp) hwf (by
                  rcases kv with ⟨k, v⟩; rw [sizeFields] at hsz ⊢; omega)
                rw [ht, List.cons_append] at hfields
                split
                · rename_i r heq
                  injection heq with h1 _
                  omega
                · rw [hfields]
      · intro xs rest hne hwf hsz
        cases xs with
        | nil => exact absurd rfl hne
        | cons x xs =>
            rw [jsonItemsWF] at hwf
            rw [Bool.and_eq_true] at hwf
            rw [sizeItems] at hsz
            rw [parseItems_red]
            cases xs with
            | nil =>
                rw [stringifyItems]
                rw [ihV x (93 :: rest) hwf.1 (by rw [sizeItems] at hsz; omega) (by rfl)]
            | cons y ys =>
                rw [stringifyItems]
                simp only [List.cons_append, List.append_assoc]
                rw [ihV x (44 :: (stringifyItems (y :: ys) ++ 93 :: rest)) hwf.1
                  (by have := sizeItems_pos y ys; omega) (by rfl)]
                have hnext := ihI (y :: ys) rest (by simp) hwf.2
                  (by have := sizeJson_pos x; omega)
                show (match parseItems fuel (stringifyItems (y :: ys) ++ 93 :: rest) with
                      | some (xs, r) => some (x :: xs, r)
                      | none => none) = some (x :: y :: ys, rest)
                rw [hnext]
      · intro kvs rest hne hwf hsz
        cases kvs with
        | nil => exact absurd rfl hne
        | cons kv kvs =>
            rcases kv with ⟨k, v⟩
            rw [jsonFieldsWF] at hwf
            rw [Bool.and_eq_true, Bool.and_eq_true] at hwf
            obtain ⟨⟨hwk, hwv⟩, hwrest⟩ := hwf
            have hwk2 : ∀ u ∈ k, u < 65536 := by
              simpa only [List.all_eq_true, decide_eq_true_eq] using hwk
            rw [sizeFields] at hsz
            cases kvs with
            | nil =>
                rw [stringifyFields, stringifyStr]
                simp only [List.cons_append, List.append_assoc, List.singleton_append,
                  List.nil_append]
                rw [parseFields_red]
                rw [parseStrBody_escape k _ hwk2]
                show (match parseValue fuel (stringifyJson v ++ 125 :: rest) with
                      | none => none
                      | some (v, rest3) =>
                          match rest3 with
                          | 44 :: rest4 =>
                              (match parseFields fuel rest4 with
                               | some (kvs, r) => some ((k, v) :: kvs, r)
                               | none => none)
                          | 125 :: rest4 => some ([(k, v)], rest4)
                          | _ => none) = some ([(k, v)], rest)
                rw [ihV v (125 :: rest) hwv (by omega) (by rfl)]
            | cons kv2 t2 =>
                rw [stringifyFields, stringifyStr]
                simp only [List.cons_append, List.append_assoc, List.singleton_append,
                  List.nil_append]
                rw [parseFields_red]
                rw [parseStrBody_escape k _ hwk2]
                show (match parseValue fuel
                        (stringifyJson v ++ 44 :: (stringifyFields (kv2 :: t2) ++ 125 :: rest)) with
                      | none => none
                      | some (v, rest3) =>
                          match rest3 with
                          | 44 :: rest4 =>
                              (match parseFields fuel rest4 with
                               | some (kvs, r) => some ((k, v) :: kvs, r)
                               | none => none)
                          | 125 :: rest4 => some ([(k, v)], rest4)
                          | _ => none) = some ((k, v) :: kv2 :: t2, rest)
                rw [ihV v (44 :: (stringifyFields (kv2 :: t2) ++ 125 :: rest)) hwv
                  (by have := sizeFields_pos kv2 t2; omega) (by rfl)]
                have hnext := ihF (kv2 :: t2) rest (by simp) hwrest
                  (by have := sizeJson_pos v; omega)
                show (match parseFields fuel (stringifyFields (kv2 :: t2) ++ 125 :: rest) with
                      | some (kvs, r) => some ((k, v) :: kvs, r)
                      | none => none) = some ((k, v) :: kv2 :: t2, rest)
                rw [hnext]

theorem jsonParse_stringify (j : Json) (hwf : jsonWF j = true) :
    jsonParse (stringifyJson j) = some j := by
  unfold jsonParse
  have hsz : sizeJson j ≤ (stringifyJson j).length + 1 := by
    have := sizeJson_le_length j
    omega
  have hfuel : ∃ m : Nat, (stringifyJson j).length + 1 = m + 1 := ⟨_, rfl⟩
  have hp := (parse_bundle ((stringifyJson j).length + 1)).1 j [] hwf hsz (by rfl)
  rw [List.append_nil] at hp
  rw [hp]

theorem rowGet_setCell (row : Row) (k : String) (v : Option PropValue) (k1 : String) :
    rowGet (setCell row k v) k1 = if k = k1 then v else rowGet row k1 := by
  induction row with
  | nil =>
      rw [setCell, rowGet, rowGet, rowGet]
  | cons cell rest ih =>
      rcases cell with ⟨k0, v0⟩
      rw [setCell]
      by_cases h0 : k0 = k
      · rw [if_pos h0, rowGet, rowGet]
        subst h0
        by_cases h1 : k0 = k1
        · rw [if_pos h1, if_pos h1]
        · rw [if_neg h1, if_neg h1, if_neg h1]
      · rw [if_neg h0, rowGet, rowGet]
        by_cases h1 : k0 = k1
        · rw [if_pos h1, if_pos h1]
          rw [if_neg (by rw [← h1]; exact fun hh => h0 hh.symm)]
        · rw [if_neg h1, if_neg h1, ih]

theorem decodeField_encodeField (k : String) (t : ECSQLValue) (v : PropValue)
    (h : hasKindWF v t = true) :
    ∃ cell, encodeField k t (some v) = .ok cell ∧ decodeField k t cell = .ok (some v) := by
  cases t with
  | string =>
      cases v with
      | str s => exact ⟨some (.str s), rfl, rfl⟩
      | _ => simp [hasKindWF] at h
  | number =>
      cases v with
      | num n => exact ⟨some (.num n), rfl, rfl⟩
      | _ => simp [hasKindWF] at h
  | boolean =>
      cases v with
      | bool b => cases b <;> exact ⟨_, rfl, rfl⟩
      | _ => simp [hasKindWF] at h
  | buffer =>
      cases v with
      | buf bytes => exact ⟨some (.buf bytes), rfl, rfl⟩
      | _ => simp [hasKindWF] at h
  | array =>
      cases v with
      | arr xs =>
          have h2 : hasKindWF (.arr xs) .array = jsonItemsWF xs := rfl
          rw [h2] at h
          have hascii := stringifyJson_ascii (Json.arr xs)
          have hid : utf16ToUtf8 (stringifyJson (Json.arr xs)) = stringifyJson (Json.arr xs) :=
            utf16ToUtf8_ascii _ hascii
          refine ⟨some (.str (bytesToHex (utf16ToUtf8 (stringifyJson (Json.arr xs))))), rfl, ?_⟩
          show (match cellToBytes k .array
                  (some (.str (bytesToHex (utf16ToUtf8 (stringifyJson (Json.arr xs)))))) with
                | .error e => Except.error e
                | .ok bytes =>
                    match utf8ToUtf16 bytes with
                    | none => Except.error (internalConvertStack k .array)
                    | some units =>
                        match jsonParse units with
                        | none => Except.error (internalConvertStack k .array)
                        | some j => Except.ok (jsonToCell j)) = Except.ok (some (.arr xs))
          rw [hid]
          show (match (match hexToBytes (bytesToHex (stringifyJson (Json.arr xs))) with
                       | some bs => Except.ok bs
                       | none => Except.error (internalConvertStack k .array)) with
                | .error e => Except.error e
                | .ok bytes =>
                    match utf8ToUtf16 bytes with
                    | none => Except.error (internalConvertStack k .array)
                    | some units =>
                        match jsonParse units with
                        | none => Except.error (internalConvertStack k .array)
                        | some j => Except.ok (jsonToCell j)) = Except.ok (some (.arr xs))
          rw [hexToBytes_bytesToHex _ (fun b hb => by have := hascii b hb; omega)]
          show (match utf8ToUtf16 (stringifyJson (Json.arr xs)) with
                | none => Except.error (internalConvertStack k .array)
                | some units =>
                    match jsonParse units with
                    | none => Except.error (internalConvertStack k .array)
                    | some j => Except.ok (jsonToCell j)) = Except.ok (some (.arr xs))
          rw [utf8ToUtf16_ascii _ hascii]
          show (match jsonParse (stringifyJson (Json.arr xs)) with
                | none => Except.error (internalConvertStack k .array)
                | some j => Except.ok (jsonToCell j)) = Except.ok (some (.arr xs))
          rw [jsonParse_stringify _ (show jsonWF (Json.arr xs) = true from by rw [jsonWF]; exact h)]
          rfl
      | _ => simp [hasKindWF] at h
  | object =>
      cases v with
      | obj kvs =>
          have h2 : hasKindWF (.obj kvs) .object = jsonFieldsWF kvs := rfl
          rw [h2] at h
          have hascii := stringifyJson_ascii (Json.obj kvs)
          have hid : utf16ToUtf8 (stringifyJson (Json.obj kvs)) = stringifyJson (Json.obj kvs) :=
            utf16ToUtf8_ascii _ hascii
          refine ⟨some (.str (bytesToHex (utf16ToUtf8 (stringifyJson (Json.obj kvs))))), rfl, ?_⟩
          show (match cellToBytes k .object
                  (some (.str (bytesToHex (utf16ToUtf8 (stringifyJson (Json.obj kvs)))))) with
                | .error e => Except.error e
                | .ok bytes =>
                    match utf8ToUtf16 bytes with
                    | none => Except.error (internalConvertStack k .object)
                    | some units =>
                        match jsonParse units with
                        | none => Except.error (internalConvertStack k .object)
                        | some j => Except.ok (jsonToCell j)) = Except.ok (some (.obj kvs))
          rw [hid]
          show (match (match hexToBytes (bytesToHex (stringifyJson (Json.obj kvs))) with
                       | some bs => Except.ok bs
                       | none => Except.error (internalConvertStack k .object)) with
                | .error e => Except.error e
                | .ok bytes =>
                    match utf8ToUtf16 bytes with
                    | none => Except.error (internalConvertStack k .object)
                    | some units =>
                        match jsonParse units with
                        | none => Except.error (internalConvertStack k .object)
                        | some j => Except.ok (jsonToCell j)) = Except.ok (some (.obj kvs))
          rw [hexToBytes_bytesToHex _ (fun b hb => by have := hascii b hb; omega)]
          show (match utf8ToUtf16 (stringifyJson (Json.obj kvs)) with
                | none => Except.error (internalConvertStack k .object)
                | some units =>
                    match jsonParse units with
                    | none => Except.error (internalConvertStack k .object)
                    | some j => Except.ok (jsonToCell j)) = Except.ok (some (.obj kvs))
          rw [utf8ToUtf16_ascii _ hascii]
          show (match jsonParse (stringifyJson (Json.obj kvs)) with
                | none => Except.error (internalConvertStack k .object)
                | some j => Except.ok (jsonToCell j)) = Except.ok (some (.obj kvs))
          rw [jsonParse_stringify _ (show jsonWF (Json.obj kvs) = true from by rw [jsonWF]; exact h)]
          rfl
      | _ => simp [hasKindWF] at h

theorem encodeFields_ok (props : String → Option PropValue) :
    ∀ (types : List (String × ECSQLValue)) (acc : Row),
      (types.map Prod.fst).Nodup →
      (∀ k t, (k, t) ∈ types → ∃ v, props k = some v ∧ hasKindWF v t = true) →
      ∃ row, encodeFields props types acc = .ok row ∧
        (∀ k1, k1 ∉ types.map Prod.fst → rowGet row k1 = rowGet acc k1) ∧
        (∀ k t, (k, t) ∈ types →
          ∃ v, props k = some v ∧ decodeField k t (rowGet row k) = .ok (some v)) := by
  intro types
  induction types with
  | nil => exact fun acc _ _ => ⟨acc, rfl, fun _ _ => rfl, fun k t hm => absurd hm (by simp)⟩
  | cons kt rest ih =>
      rcases kt with ⟨k, t⟩
      intro acc hnd hvals
      obtain ⟨v, hv, hkind⟩ := hvals k t (by simp)
      obtain ⟨cell, henc, hdec⟩ := decodeField_encodeField k t v hkind
      obtain ⟨hknotin, hnd2⟩ :=
        List.nodup_cons.mp (show (k :: rest.map Prod.fst).Nodup by simpa using hnd)
      obtain ⟨row, hrow, hout, hin⟩ := ih (setCell acc k cell) hnd2
        (fun k1 t1 hm => hvals k1 t1 (by simp [hm]))
      refine ⟨row, ?_, ?_, ?_⟩
      · rw [encodeFields, hv, henc]
        show encodeFields props rest (setCell acc k cell) = Except.ok row
        exact hrow
      · intro k1 hk1
        simp only [List.map_cons, List.mem_cons, not_or] at hk1
        rw [hout k1 (by simpa using hk1.2), rowGet_setCell, if_neg (fun hh => hk1.1 hh.symm)]
      · intro k1 t1 hm
        rcases List.mem_cons.mp hm with heq | hm2
        · rcases Prod.mk.injEq .. ▸ heq with ⟨hk, ht⟩
          subst hk; subst ht
          refine ⟨v, hv, ?_⟩
          rw [hout k1 hknotin, rowGet_setCell, if_pos rfl]
          exact hdec
        · exact hin k1 t1 hm2

theorem decodeFields_ok (row : Row) :
    ∀ (types : List (String × ECSQLValue)) (acc : String → Option PropValue),
      (types.map Prod.fst).Nodup →
      (∀ k t, (k, t) ∈ types → ∃ w, decodeField k t (rowGet row k) = .ok w) →
      ∃ props1, decodeFields row types acc = .ok props1 ∧
        (∀ k1, k1 ∉ types.map Prod.fst → props1 k1 = acc k1) ∧
        (∀ k t, (k, t) ∈ types → decodeField k t (rowGet row k) = .ok (props1 k)) := by
  intro types
  induction types with
  | nil => exact fun acc _ _ => ⟨acc, rfl, fun _ _ => rfl, fun k t hm => absurd hm (by simp)⟩
  | cons kt rest ih =>
      rcases kt with ⟨k, t⟩
      intro acc hnd hdecs
      obtain ⟨w, hw⟩ := hdecs k t (by simp)
      obtain ⟨hknotin, hnd2⟩ :=
        List.nodup_cons.mp (show (k :: rest.map Prod.fst).Nodup by simpa using hnd)
      obtain ⟨props1, hprops, hout, hin⟩ := ih (updFun acc k w) hnd2
        (fun k1 t1 hm => hdecs k1 t1 (by simp [hm]))
      refine ⟨props1, ?_, ?_, ?_⟩
      · rw [decodeFields, hw]
        show decodeFields row rest (updFun acc k w) = Except.ok props1
        exact hprops
      · intro k1 hk1
        simp only [List.map_cons, List.mem_cons, not_or] at hk1
        rw [hout k1 (by simpa using hk1.2), updFun, if_neg hk1.1]
      · intro k1 t1 hm
        rcases List.mem_cons.mp hm with heq | hm2
        · rcases Prod.mk.injEq .. ▸ heq with ⟨hk, ht⟩
          subst hk; subst ht
          rw [hout k1 hknotin, updFun, if_pos rfl]
          exact hw
        · exact hin k1 t1 hm2

/-- Claim C2: for every record whose declared fields all hold values of their
declared value kinds, `decode(encode(record))` restores exactly the original
field values — booleans through the 0/1 encoding, structured arrays/objects
through the JSON/UTF-8/hex chain, buffers through the buffer copy — and the
reserved `id`/`updatedAt`/`createdAt` columns round-trip unchanged. -/
theorem claim_c2_codec_roundtrip (types : List (String × ECSQLValue)) (r : ECRecord)
    (hnd : (types.map Prod.fst).Nodup)
    (hres : ∀ k, k ∈ types.map Prod.fst → k ≠ "id" ∧ k ≠ "updatedAt" ∧ k ≠ "createdAt")
    (hvals : ∀ k t, (k, t) ∈ types → ∃ v, r.props k = some v ∧ hasKindWF v t = true) :
    ∃ row r1, ECSQLObject.encode types r = .ok row ∧
      ECSQLObject.decode types row = .ok r1 ∧
      r1.id = r.id ∧ r1.updatedAt = r.updatedAt ∧ r1.createdAt = r.createdAt ∧
      ∀ k t, (k, t) ∈ types → r1.props k = r.props k := by
  obtain ⟨row0, hrow0, hout0, hin0⟩ := encodeFields_ok r.props types [] hnd hvals
  set finalRow := setCell (setCell (setCell row0 "id" r.id) "updatedAt" r.updatedAt)
    "createdAt" r.createdAt with hfr
  have hget : ∀ k, k ≠ "id" → k ≠ "updatedAt" → k ≠ "createdAt" →
      rowGet finalRow k = rowGet row0 k := by
    intro k h1 h2 h3
    rw [hfr, rowGet_setCell, if_neg (fun hh => h3 hh.symm),
        rowGet_setCell, if_neg (fun hh => h2 hh.symm),
        rowGet_setCell, if_neg (fun hh => h1 hh.symm)]
  have hdecs : ∀ k t, (k, t) ∈ types → ∃ w, decodeField k t (rowGet finalRow k) = .ok w := by
    intro k t hm
    obtain ⟨hk1, hk2, hk3⟩ := hres k (by exact List.mem_map.mpr ⟨(k, t), hm, rfl⟩)
    obtain ⟨v, _, hdec⟩ := hin0 k t hm
    exact ⟨some v, by rw [hget k hk1 hk2 hk3]; exact hdec⟩
  obtain ⟨props1, hprops1, _, hin1⟩ := decodeFields_ok finalRow types (fun _ => none) hnd hdecs
  refine ⟨finalRow, ⟨rowGet finalRow "id", rowGet finalRow "updatedAt",
    rowGet finalRow "createdAt", props1⟩, ?_, ?_, ?_, ?_, ?_, ?_⟩
  · rw [ECSQLObject.encode, hrow0]
  · rw [ECSQLObject.decode, hprops1]
  · show rowGet finalRow "id" = r.id
    rw [hfr, rowGet_setCell, if_neg (by decide), rowGet_setCell, if_neg (by decide),
        rowGet_setCell, if_pos rfl]
  · show rowGet finalRow "updatedAt" = r.updatedAt
    rw [hfr, rowGet_setCell, if_neg (by decide), rowGet_setCell, if_pos rfl]
  · show rowGet finalRow "createdAt" = r.createdAt
    rw [hfr, rowGet_setCell, if_pos rfl]
  · intro k t hm
    obtain ⟨hk1, hk2, hk3⟩ := hres k (by exact List.mem_map.mpr ⟨(k, t), hm, rfl⟩)
    obtain ⟨v, hv, hdec⟩ := hin0 k t hm
    have hd1 := hin1 k t hm
    rw [hget k hk1 hk2 hk3] at hd1
    rw [hdec] at hd1
    show props1 k = r.props k
    rw [hv]
    exact (Except.ok.injEq .. ▸ hd1).symm



/-- Claim C1 (refuted — code bug): the claim says that after `create()`
resolves the in-memory `id` equals the `id` column value written by the
insert.  In the code, attempt 0 encodes the first random draw ("A") into the
insert row but returns the separately drawn `newID` ("B"), which `create`
installs as `this.id`: the in-memory id differs from every inserted id, so a
subsequent `getObjectWithId` with the returned identifier cannot find the
row. -/
theorem claim_c1_create_id_mismatch :
    ECSQLObject.create ⟨fun _ => .success, fun n => if n = 0 then "A" else "B"⟩ "user" none
      = .ok ⟨some "B", ["A"]⟩ ∧ ("B" : String) ≠ "A" := by
  constructor
  · simp [ECSQLObject.create, createProcess]
  · decide

/-- Claim C8: for every persisted record, after `delete()` resolves the
in-memory identifier is cleared, and every subsequent `update()`,
`updateProps()` or `delete()` on the detached instance fails with the
`InvalidRequest` stack without issuing any statement, while a new `create`
again installs an identifier. -/
theorem claim_c8_delete_detaches (db : LifecycleCmd → Option ECErrorStack) (table : String)
    (s : ObjState) (i : String) (hid : s.id = some i) (hok : db (.deleteRow table i) = none) :
    ECSQLObject.delete db table s = ([.deleteRow table i], .ok ⟨none⟩) ∧
    (∀ db₂, ECSQLObject.update db₂ table ⟨none⟩ = ([], .error (cannotUpdateStack table))) ∧
    (∀ db₂ keys, ECSQLObject.updateProps db₂ table keys ⟨none⟩
        = ([], .error (cannotUpdateStack table))) ∧
    (∀ db₂, ECSQLObject.delete db₂ table ⟨none⟩ = ([], .error (cannotDeleteStack table))) ∧
    (∀ env : CreateEnv, env.outcome 0 = .success →
        ECSQLObject.create env table none = .ok ⟨some (env.randomId 1), [env.randomId 0]⟩) := by
  refine ⟨?_, fun db₂ => rfl, fun db₂ keys => rfl, fun db₂ => rfl, fun env hs => ?_⟩
  · simp [ECSQLObject.delete, hid, hok]
  · simp [ECSQLObject.create, createProcess, hs]

theorem claim_c8_witness :
    (ObjState.mk (some "xyz")).id = some "xyz" ∧
    ((fun _ => none : LifecycleCmd → Option ECErrorStack) (.deleteRow "user" "xyz") = none) ∧
    ECSQLObject.delete (fun _ => none) "user" ⟨some "xyz"⟩
      = ([.deleteRow "user" "xyz"], .ok ⟨none⟩) ∧
    ECSQLObject.update (fun _ => none) "user" ⟨none⟩ = ([], .error (cannotUpdateStack "user")) := by
  refine ⟨rfl, rfl, ?_, ?_⟩
  · exact (claim_c8_delete_detaches (fun _ => none) "user" ⟨some "xyz"⟩ "xyz" rfl rfl).1
  · exact (claim_c8_delete_detaches (fun _ => none) "user" ⟨some "xyz"⟩ "xyz" rfl rfl).2.1 _

theorem createProcess_success (env : CreateEnv) :
    ∀ (k c a : Nat), c + k ≤ 100 → (∀ i, i < k → env.outcome (a + i) = .pkCollision) →
    env.outcome (a + k) = .success →
    createProcess env c a =
      .ok (env.randomId (2 * (a + k) + 1),
           (List.range (k + 1)).map (fun i => env.randomId (2 * (a + i)))) := by
  intro k
  induction k with
  | zero =>
      intro c a _ _ hs
      have hs1 : env.outcome a = .success := by simpa using hs
      rw [createProcess]
      simp only [hs1]
      rfl
  | succ k ih =>
      intro c a hck hcoll hs
      rw [createProcess]
      have h0 : env.outcome a = .pkCollision := by
        have := hcoll 0 (Nat.succ_pos k)
        simpa using this
      have hrec := ih (c + 1) (a + 1) (by omega)
        (fun i hi => by
          have := hcoll (i + 1) (by omega)
          simpa [Nat.add_assoc, Nat.add_comm 1 i] using this)
        (by
          have harg : a + 1 + k = a + (k + 1) := by omega
          rw [harg]; exact hs)
      have hlist : (List.range (k + 1 + 1)).map (fun i => env.randomId (2 * (a + i)))
          = env.randomId (2 * a) ::
            (List.range (k + 1)).map (fun i => env.randomId (2 * (a + 1 + i))) := by
        rw [List.range_succ_eq_map, List.map_cons, List.map_map]
        refine congrArg₂ List.cons rfl ?_
        · refine List.map_congr_left (fun i _ => ?_)
          simp only [Function.comp_apply]
          congr 1
          omega
      have hno : ¬ (c + 1 > 100) := by omega
      simp only [h0, if_neg hno, hrec]
      have harith : a + 1 + k = a + (k + 1) := by omega
      rw [harith, hlist]

theorem createProcess_exhaust (env : CreateEnv) :
    ∀ (m c a : Nat), c + m = 100 → (∀ i, i ≤ m → env.outcome (a + i) = .pkCollision) →
    createProcess env c a = .error retryExhaustedStack := by
  intro m
  induction m with
  | zero =>
      intro c a hc hcoll
      rw [createProcess]
      have h0 : env.outcome a = .pkCollision := by simpa using hcoll 0 (by omega)
      simp only [h0]
      have : c + 1 > 100 := by omega
      simp [this]
  | succ m ih =>
      intro c a hc hcoll
      rw [createProcess]
      have h0 : env.outcome a = .pkCollision := by simpa using hcoll 0 (by omega)
      simp only [h0]
      have hno : ¬ (c + 1 > 100) := by omega
      have hrec := ih (c + 1) (a + 1) (by omega)
        (fun i hi => by
          have := hcoll (i + 1) (by omega)
          simpa [Nat.add_assoc, Nat.add_comm 1 i] using this)
      simp [if_neg hno, hrec]

/-- Claim C3: every insert failure classified as a primary-key collision
draws a fresh identifier and re-attempts the full insert; the first
non-colliding attempt succeeds (having inserted one fresh id per attempt),
and once more than 100 consecutive collisions occur the call aborts with the
fatal internal retry-exhausted stack instead of retrying further. -/
theorem claim_c3_create_retry :
    (∀ (env : CreateEnv) (k : Nat), k ≤ 100 →
      (∀ i, i < k → env.outcome i = .pkCollision) → env.outcome k = .success →
      createProcess env 0 0 =
        .ok (env.randomId (2 * k + 1), (List.range (k + 1)).map (fun i => env.randomId (2 * i)))) ∧
    (∀ env : CreateEnv, (∀ i, i ≤ 100 → env.outcome i = .pkCollision) →
      createProcess env 0 0 = .error retryExhaustedStack) := by
  constructor
  · intro env k hk hcoll hs
    have := createProcess_success env k 0 0 (by omega) (fun i hi => by simpa using hcoll i hi)
      (by simpa using hs)
    simpa using this
  · intro env hcoll
    exact createProcess_exhaust env 100 0 0 rfl (fun i hi => by simpa using hcoll i hi)

theorem claim_c3_witness :
    (2 : Nat) ≤ 100 ∧
    createProcess ⟨fun a => if a < 2 then .pkCollision else .success, fun n => toString n⟩ 0 0
      = .ok ((fun n => toString n) (2 * 2 + 1),
             (List.range 3).map (fun i => (fun n => toString n) (2 * i))) ∧
    createProcess ⟨fun _ => .pkCollision, fun n => toString n⟩ 0 0
      = .error retryExhaustedStack := by
  refine ⟨by decide, ?_, ?_⟩
  · exact claim_c3_create_retry.1 ⟨fun a => if a < 2 then .pkCollision else .success, fun n => toString n⟩
      2 (by decide) (fun i hi => by simp [hi]) (by simp)
  · exact claim_c3_create_retry.2 ⟨fun _ => .pkCollision, fun n => toString n⟩ (fun i _ => rfl)


/-- Claim C4: for a uniqueness-violation code (1062), a message referencing
the reserved `'PRIMARY'` constraint name maps to the retry signal, and every
other uniqueness violation maps to the user-facing value-already-exists
error naming the field label resolved through the configured
constraint-name map, falling back to the raw (extracted, lower-cased)
constraint name when unmapped. -/
theorem claim_c4_duplicate_classifier (dk : List (String × String)) (err : SQLErrorInfo)
    (h1062 : err.errno = .num 1062) :
    (jsIndexOf err.sqlMessage primaryNeedle ≠ -1 →
       ECSQLDatabase.handleError dk err = .retrySignal) ∧
    (jsIndexOf err.sqlMessage primaryNeedle = -1 →
       ECSQLDatabase.handleError dk err = .stack
         [.mk .user .valueAlreadyExists
            ("This value already exists for key: " ++ sq ++
             (match dk.lookup (extractConstraintName err.sqlMessage) with
              | some label => label
              | none => extractConstraintName err.sqlMessage) ++ sq ++ ".")]) := by
  constructor
  · intro hp
    simp [ECSQLDatabase.handleError, h1062, hp]
  · intro hp
    simp [ECSQLDatabase.handleError, h1062, hp, ECSQLDuplicateKeyHelper.getError]

theorem claim_c4_witness :
    c4Err.errno = .num 1062 ∧
    jsIndexOf c4Err.sqlMessage primaryNeedle = -1 ∧
    ECSQLDatabase.handleError [("user_email_uindex", "email")] c4Err = .stack
      [.mk .user .valueAlreadyExists
         ("This value already exists for key: " ++ sq ++ "email" ++ sq ++ ".")] ∧
    ECSQLDatabase.handleError [] c4Err = .stack
      [.mk .user .valueAlreadyExists
         ("This value already exists for key: " ++ sq ++ "user_email_uindex" ++ sq ++ ".")] ∧
    ECSQLDatabase.handleError []
        ⟨.num 1062, "Duplicate entry " ++ sq ++ "x" ++ sq ++ " for key " ++ sq ++ "PRIMARY" ++ sq, "dup"⟩
      = .retrySignal := by
  refine ⟨rfl, by decide, ?_, ?_, ?_⟩
  · exact (claim_c4_duplicate_classifier [("user_email_uindex", "email")] c4Err rfl).2 (by decide)
  · exact (claim_c4_duplicate_classifier [] c4Err rfl).2 (by decide)
  · exact (claim_c4_duplicate_classifier []
      ⟨.num 1062, "Duplicate entry " ++ sq ++ "x" ++ sq ++ " for key " ++ sq ++ "PRIMARY" ++ sq, "dup"⟩
      rfl).1 (by decide)


/-- Claim C5 (counterexample): with the numeric literals 18 and 10 the OR
group does not compile to `((age>='18') OR (age<='10'))` — numbers are not
quoted. -/
theorem claim_c5_counterexample :
    (ECSQLFilterTree.group .disjunction
      [.leaf (ECSQLFilter.make "age" .greaterThanOrEqual (.num 18)),
       .leaf (ECSQLFilter.make "age" .lessThanOrEqual (.num 10))]).generateSQLCommand
      ≠ .ok ("((age>=" ++ sq ++ "18" ++ sq ++ ") OR (age<=" ++ sq ++ "10" ++ sq ++ "))") := by
  decide

/-- Claim C5 (amended): a filter group with condition OR over the leaves
(age, >=, 18) and (age, <=, 10) compiles with each child parenthesized,
children joined by the group operator and the whole group parenthesized,
each literal rendered per its value type: numeric literals are unquoted,
`((age>=18) OR (age<=10))`, while string literals "18"/"10" yield exactly
`((age>='18') OR (age<='10'))`. -/
theorem claim_c5_amended :
    (ECSQLFilterTree.group .disjunction
      [.leaf (ECSQLFilter.make "age" .greaterThanOrEqual (.num 18)),
       .leaf (ECSQLFilter.make "age" .lessThanOrEqual (.num 10))]).generateSQLCommand
      = .ok "((age>=18) OR (age<=10))" ∧
    (ECSQLFilterTree.group .disjunction
      [.leaf (ECSQLFilter.make "age" .greaterThanOrEqual (.str "18")),
       .leaf (ECSQLFilter.make "age" .lessThanOrEqual (.str "10"))]).generateSQLCommand
      = .ok ("((age>=" ++ sq ++ "18" ++ sq ++ ") OR (age<=" ++ sq ++ "10" ++ sq ++ "))") :=
  ⟨rfl, rfl⟩

/-- Claim C6: every filter whose operator is contained-in (IN) and whose
value is not an array makes `generateSQLCommand()` fail with the
parameter-incorrect-format stack at SQL-generation time — generation is a
pure function, so no statement can have been executed — and the value is
never coerced into a one-element list. -/
theorem claim_c6_contained_in_requires_array (key : String) (v : ECSQLFilterValue)
    (hv : v.isArray = false) :
    (ECSQLFilter.make key .containedIn v).generateSQLCommand = .error containedInFormatStack := by
  cases v <;> simp_all [ECSQLFilter.make, ECSQLFilter.generateSQLCommand, ECSQLFilterValue.isArray]

theorem claim_c6_witness :
    (ECSQLFilterValue.str "x").isArray = false ∧
    (ECSQLFilter.make "id" .containedIn (.str "x")).generateSQLCommand
      = .error containedInFormatStack :=
  ⟨rfl, claim_c6_contained_in_requires_array "id" (.str "x") rfl⟩

/-- Claim C7 (counterexample): with a sort and a limit set, the count
command is `SELECT COUNT(*) FROM user ORDER BY age ASC LIMIT 1;` — it does
contain ORDER BY and LIMIT, unlike the claimed
`SELECT COUNT(*) FROM <table>[ WHERE ...];` shape. -/
theorem claim_c7_counterexample :
    (ECSQLQuery.mk "user" none (some ⟨"age", .leastToGreatest⟩) (some 1)).generateSQLCommand true
      = .ok "SELECT COUNT(*) FROM user ORDER BY age ASC LIMIT 1;" ∧
    ("SELECT COUNT(*) FROM user ORDER BY age ASC LIMIT 1;" : String)
      ≠ "SELECT COUNT(*) FROM user;" :=
  ⟨rfl, by decide⟩

/-- Claim C7 (amended): the count command differs from the non-count
command only in its `SELECT` prefix — both carry the same optional `WHERE
(<filter>)`, sort clause and `LIMIT <n>` in that order — and the non-count
command is exactly
`SELECT * FROM <table> WHERE (<filter>) <order-by> LIMIT <n>;`. -/
theorem claim_c7_amended :
    (∀ q : ECSQLQuery,
      (∃ suffix, q.generateSQLCommand false = .ok ("SELECT * FROM " ++ suffix) ∧
                 q.generateSQLCommand true = .ok ("SELECT COUNT(*) FROM " ++ suffix)) ∨
      (∃ e, q.generateSQLCommand false = .error e ∧ q.generateSQLCommand true = .error e)) ∧
    (∀ (table : String) (f : ECSQLFilterTree) (s : ECSQLSort) (lim : Int) (w : String),
      f.generateSQLCommand = .ok w →
      (ECSQLQuery.mk table (some f) (some s) (some lim)).generateSQLCommand false =
        .ok ("SELECT * FROM " ++ table ++ " WHERE (" ++ w ++ ") " ++
             s.generateSQLCommand ++ " LIMIT " ++ toString lim ++ ";")) := by
  constructor
  · intro q
    rcases q with ⟨table, filter, sort, limit⟩
    rcases filter with _ | f
    · left
      cases sort <;> cases limit <;>
        simp [ECSQLQuery.generateSQLCommand, String.append_assoc] <;> exact ⟨_, rfl, rfl⟩
    · rcases hf : f.generateSQLCommand with e | w
      · right
        exact ⟨e, by simp [ECSQLQuery.generateSQLCommand, hf], by simp [ECSQLQuery.generateSQLCommand, hf]⟩
      · left
        cases sort <;> cases limit <;>
          simp [ECSQLQuery.generateSQLCommand, hf, String.append_assoc] <;> exact ⟨_, rfl, rfl⟩
  · intro table f s lim w hf
    simp [ECSQLQuery.generateSQLCommand, hf, String.append_assoc]

theorem claim_c7_amended_witness :
    (ECSQLQuery.mk "user" (some (.leaf (ECSQLFilter.make "age" .equal (.num 5))))
        (some ⟨"age", .leastToGreatest⟩) (some 2)).generateSQLCommand false =
      .ok ("SELECT * FROM " ++ "user" ++ " WHERE (" ++ "age=5" ++ ") " ++
           (ECSQLSort.mk "age" .leastToGreatest).generateSQLCommand ++ " LIMIT " ++
           toString (2 : Int) ++ ";") :=
  claim_c7_amended.2 "user" (.leaf (ECSQLFilter.make "age" .equal (.num 5)))
    ⟨"age", .leastToGreatest⟩ 2 "age=5" rfl

/-- Claim C9 (refuted — code bug): the claim (and the method's own doc
comment) says `getFirstObject(allowUndefined)` signals a not-found condition
unless the flag suppresses it.  The code does set the row limit to 1 and
return the first decoded record, but when no row matches it returns
`undefined` without any error and ignores `allowUndefined` entirely: the
result is identical for both flag values. -/
theorem claim_c9_first_object_flag_ignored :
    ECSQLQuery.getFirstObject (fun _ => ([] : List Nat)) ⟨"user", none, none, none⟩ false
      = .ok ("SELECT * FROM user LIMIT 1;", none) ∧
    ECSQLQuery.getFirstObject (fun _ => ([] : List Nat)) ⟨"user", none, none, none⟩ false
      = ECSQLQuery.getFirstObject (fun _ => ([] : List Nat)) ⟨"user", none, none, none⟩ true :=
  ⟨rfl, rfl⟩

theorem formatRespValue_spec (v v1 : RespCell) (h : formatRespValue v = some v1) :
    cellFormatted v v1 := by
  cases v with
  | str s =>
      rw [formatRespValue] at h
      cases hud : uriDecode s with
      | none => rw [hud] at h; cases h
      | some d =>
          rw [hud] at h
          have h2 : (match jsonParse d with
                     | some j => some (RespCell.json j)
                     | none => some (RespCell.str d)) = some v1 := h
          cases hjp : jsonParse d with
          | none =>
              rw [hjp] at h2
              injection h2 with h1
              exact ⟨d, hud, Or.inr ⟨hjp, h1.symm⟩⟩
          | some j =>
              rw [hjp] at h2
              injection h2 with h1
              exact ⟨d, hud, Or.inl ⟨j, hjp, h1.symm⟩⟩
  | num n => injection h with h1; exact h1.symm
  | bool b => injection h with h1; exact h1.symm
  | json j => injection h with h1; exact h1.symm

/-- Claim C10: the response wrapper URI-decodes every string cell and
replaces it by its parsed JSON structure when the decoded text parses as
JSON; non-string cells and non-JSON strings pass through unchanged (the
latter as their decoded text). -/
theorem claim_c10_response_formatting (row fr : List (String × RespCell))
    (h : responseFormat row = some fr) :
    List.Forall₂ (fun a b => a.1 = b.1 ∧ cellFormatted a.2 b.2) row fr := by
  induction row generalizing fr with
  | nil =>
      rw [responseFormat] at h
      injection h with h1
      rw [← h1]
      exact List.Forall₂.nil
  | cons cell rest ih =>
      rcases cell with ⟨k, v⟩
      rw [responseFormat] at h
      cases hfv : formatRespValue v with
      | none => rw [hfv] at h; cases h
      | some v1 =>
          rw [hfv] at h
          cases hrf : responseFormat rest with
          | none => rw [hrf] at h; cases h
          | some tail =>
              rw [hrf] at h
              injection h with h1
              rw [← h1]
              exact List.Forall₂.cons ⟨rfl, formatRespValue_spec v v1 hfv⟩ (ih tail hrf)

theorem claim_c10_witness :
    responseFormat
        [("age", .str [50, 48]), ("name", .str [104, 105]), ("count", .num 3),
         ("enc", .str [37, 52, 49])] =
      some [("age", .json (.num 20)), ("name", .str [104, 105]), ("count", .num 3),
            ("enc", .str [65])] ∧
    List.Forall₂ (fun a b => a.1 = b.1 ∧ cellFormatted a.2 b.2)
      [("age", RespCell.str [50, 48]), ("name", .str [104, 105]), ("count", .num 3),
       ("enc", .str [37, 52, 49])]
      [("age", RespCell.json (.num 20)), ("name", .str [104, 105]), ("count", .num 3),
       ("enc", .str [65])] :=
  ⟨rfl, claim_c10_response_formatting _ _ rfl⟩

theorem claim_c2_codec_roundtrip_witness :
    ∃ row r1, ECSQLObject.encode wSchema wRec = .ok row ∧
      ECSQLObject.decode wSchema row = .ok r1 ∧
      r1.id = wRec.id ∧ r1.updatedAt = wRec.updatedAt ∧ r1.createdAt = wRec.createdAt ∧
      ∀ k t, (k, t) ∈ wSchema → r1.props k = wRec.props k :=
  claim_c2_codec_roundtrip wSchema wRec (by decide) (by decide)
    (by
      intro k t hm
      fin_cases hm <;> exact ⟨_, rfl, rfl⟩)

end NoSQL
